import Mathlib

/-!
# kubesql `pkg/eval`: key-path resolution and string coercion

A shallow embedding of `src/pkg/eval/eval.go` (`Factory`, `Factory2`,
`extractValue`, `getNestedObject`, `stringValue`) together with the library
routines it calls (`strings.Split`, `strings.HasPrefix`, `strings.TrimPrefix`,
`strconv.ParseUint`, `strconv.ParseInt`, `time.Parse`), followed by theorems
about them.

Conventions.
* A Go `string` is a `List Char`.  Every comparison the code makes is against
  an ASCII literal and every length test is `> n` after such a comparison or
  before a numeric parse, so on well-formed UTF-8 the byte view and the
  character view agree.
* A Go `interface{}` is a `Value`.
* A Go `float64` is the rational number it denotes.  Only finite values occur;
  the sign of zero is not tracked.
* A function that can panic at run time returns `Option`; `none` is the panic.
-/

namespace Kubesql

/-- Go `string`. -/
abbrev GoString := List Char

/-! ## `strings` -/

/-- `strings.Split(s, sep)` for a one-character separator: the pieces between
the separators, never an empty list. -/
def Split (s : GoString) (sep : Char) : List GoString :=
  match s with
  | [] => [[]]
  | c :: cs =>
    if c = sep then [] :: Split cs sep
    else
      match Split cs sep with
      | [] => [[c]]
      | seg :: rest => (c :: seg) :: rest

/-- `strings.HasPrefix(s, prefix)`. -/
def HasPrefix (s pre : GoString) : Bool :=
  s.take pre.length == pre

/-- `strings.TrimPrefix(s, prefix)`. -/
def TrimPrefix (s pre : GoString) : GoString :=
  if HasPrefix s pre then s.drop pre.length else s

/-! ## `strconv` -/

/-- Decimal digit test on a character. -/
def isDigit (c : Char) : Bool :=
  '0' ≤ c && c ≤ '9'

/-- Value of a decimal digit character. -/
def digitVal (c : Char) : Nat :=
  c.toNat - '0'.toNat

/-- Left-to-right accumulation of a run of decimal digits; `none` on the first
character that is not a digit. -/
def digitsValue (s : GoString) (acc : Nat) : Option Nat :=
  match s with
  | [] => some acc
  | c :: cs => if isDigit c then digitsValue cs (acc * 10 + digitVal c) else none

/-- `strconv.ParseUint(s, 10, 64)`: `some n` when `err == nil`.  The string
must be a non-empty run of decimal digits whose value fits in 64 bits. -/
def ParseUint (s : GoString) : Option Nat :=
  match s with
  | [] => none
  | _ :: _ =>
    match digitsValue s 0 with
    | some n => if n < 2 ^ 64 then some n else none
    | none => none

/-- Magnitude part of `strconv.ParseInt`: the digits after the optional sign.
A value beyond 64 bits is a range error, which the cutoff test of `ParseInt`
reports as well. -/
def parseMagnitude (s : GoString) : Option Nat :=
  match s with
  | [] => none
  | _ :: _ => digitsValue s 0

/-- `strconv.ParseInt(s, 10, 64)`: `some i` when `err == nil`.  An optional
leading `+` or `-`, then decimal digits; the cutoff is `2^63`. -/
def ParseInt (s : GoString) : Option Int :=
  match s with
  | [] => none
  | c :: cs =>
    let neg := c = '-'
    let body := if c = '+' ∨ c = '-' then cs else s
    match parseMagnitude body with
    | none => none
    | some un =>
      if ¬ neg ∧ un ≥ 2 ^ 63 then none
      else if neg ∧ un > 2 ^ 63 then none
      else some (if neg then -(un : Int) else (un : Int))

/-! ## `float64` -/

/-- Number of low bits dropped when an integer of magnitude `a < 2^64` is
rounded to the 53-bit significand of a `float64`. -/
def roundShift (a : Nat) : Nat :=
  ((List.range 12).find? (fun e => decide (a < 2 ^ (53 + e)))).getD 11

/-- Round `a` to a multiple of `2^e`, ties to the even multiple. -/
def roundHalfEven (a e : Nat) : Nat :=
  let q := a / 2 ^ e
  let r := a % 2 ^ e
  if 2 * r > 2 ^ e ∨ (2 * r = 2 ^ e ∧ q % 2 = 1) then (q + 1) * 2 ^ e else q * 2 ^ e

/-- The conversion `float64(i)` of an `int64`: the nearest `float64`, ties to
even.  The result is an integer, exact when `|i| ≤ 2^53`. -/
def float64OfInt64 (i : Int) : Int :=
  let a := i.natAbs
  let v := roundHalfEven a (roundShift a)
  if i < 0 then -(v : Int) else (v : Int)

/-! ## `time` -/

/-- A `time.Time`, kept as the civil date and clock reading it was built from
together with the zone offset in seconds east of UTC. -/
structure Time where
  year : Int
  month : Nat
  day : Nat
  hour : Nat
  min : Nat
  sec : Nat
  nsec : Nat
  offset : Int
  deriving DecidableEq, Repr

/-- The zero `time.Time`: January 1, year 1, 00:00:00 UTC. -/
def Time.zero : Time :=
  ⟨1, 1, 1, 0, 0, 0, 0, 0⟩

/-- `time.getnum`: one or two leading digits, exactly two when `fixed`. -/
def getnum (s : GoString) (fixed : Bool) : Option (Nat × GoString) :=
  match s with
  | [] => none
  | [c0] => if isDigit c0 && !fixed then some (digitVal c0, []) else none
  | c0 :: c1 :: rest =>
    if isDigit c0 then
      if isDigit c1 then some (digitVal c0 * 10 + digitVal c1, rest)
      else if fixed then none
      else some (digitVal c0, c1 :: rest)
    else none

/-- `time.skip` for a one-character literal of the layout. -/
def skip (s : GoString) (c : Char) : Option GoString :=
  match s with
  | [] => none
  | d :: rest => if d = c then some rest else none

/-- `time.atoi`: an optional sign and then digits only (possibly none). -/
def atoi (s : GoString) : Option Int :=
  match s with
  | [] => some 0
  | c :: cs =>
    let body := if c = '-' ∨ c = '+' then cs else s
    match digitsValue body 0 with
    | none => none
    | some n => some (if c = '-' then -(n : Int) else (n : Int))

/-- `time.isLeap`. -/
def isLeap (year : Int) : Bool :=
  year % 4 = 0 && (year % 100 ≠ 0 || year % 400 = 0)

/-- `time.daysIn`. -/
def daysIn (month : Nat) (year : Int) : Nat :=
  if month = 2 then (if isLeap year then 29 else 28)
  else if month = 4 ∨ month = 6 ∨ month = 9 ∨ month = 11 then 30
  else 31

/-- Fractional seconds that `time.Parse` accepts after the seconds field even
though the layout has none (`parseNanoseconds`): a `.` or `,` and digits, of
which the first nine count.  Returns the nanoseconds and the rest. -/
def fractionalSecond (value : GoString) : Nat × GoString :=
  match value with
  | c :: d :: _ =>
    if (c = '.' ∨ c = ',') ∧ isDigit d then
      let digits := (value.drop 1).takeWhile isDigit
      let frac := digits.take 9
      ((digitsValue frac 0).getD 0 * 10 ^ (9 - frac.length), (value.drop 1).dropWhile isDigit)
    else (0, value)
  | _ => (0, value)

/-- The zone field `Z07:00` of the RFC 3339 layout: `Z`, or a sign, two digits,
a colon and two digits.  Returns the offset in seconds and the rest. -/
def zoneOffset (value : GoString) : Option (Int × GoString) :=
  match value with
  | 'Z' :: rest => some (0, rest)
  | sign :: h0 :: h1 :: c :: m0 :: m1 :: rest =>
    if c ≠ ':' then none
    else
      (getnum [h0, h1] true).bind fun (hr, _) =>
      (getnum [m0, m1] true).bind fun (mm, _) =>
      if hr > 24 ∨ mm > 60 then none
      else if sign = '+' then some ((((hr * 60 + mm) * 60 : Nat) : Int), rest)
      else if sign = '-' then some (-(((hr * 60 + mm) * 60 : Nat) : Int), rest)
      else none
  | _ => none

/-- A numeric field of a layout followed by a bound on it: `getnum` and the
range test `time.Parse` makes right after (`lo ≤ n ≤ hi`). -/
def numField (value : GoString) (fixed : Bool) (lo hi : Nat) : Option (Nat × GoString) :=
  match getnum value fixed with
  | some (n, rest) => if n < lo ∨ hi < n then none else some (n, rest)
  | none => none

/-- The date part `2006-01-02` of the RFC 3339 layout: a four-digit year, a
zero-padded month in `1..12` and a zero-padded day, separated by `-`.  The day
is checked against the month once the whole value is read. -/
def dateFields (value : GoString) : Option (Int × Nat × Nat × GoString) :=
  if value.length < 4 ∨ !isDigit (value.headD ' ') then none
  else do
    let year ← atoi (value.take 4)
    let value ← skip (value.drop 4) '-'
    let (month, value) ← numField value true 1 12
    let value ← skip value '-'
    let (day, value) ← getnum value true
    pure (year, month, day, value)

/-- The clock part `15:04:05` of the RFC 3339 layout: an hour of one or two
digits below 24, a zero-padded minute and second below 60, separated by `:`,
and the fractional second `time.Parse` accepts after them. -/
def clockFields (value : GoString) : Option (Nat × Nat × Nat × Nat × GoString) := do
  let (hour, value) ← numField value false 0 23
  let value ← skip value ':'
  let (min, value) ← numField value true 0 59
  let value ← skip value ':'
  let (sec, value) ← numField value true 0 59
  let (nsec, value) := fractionalSecond value
  pure (hour, min, sec, nsec, value)

/-- `time.Parse(time.RFC3339, value)`, `some t` when `err == nil`.  The layout
`2006-01-02T15:04:05Z07:00` is the field sequence long year, zero-padded month
and day, hour (one or two digits), zero-padded minute and second, zone; no
text may follow, and the day must exist in the month. -/
def parseRFC3339 (value : GoString) : Option Time := do
  let (year, month, day, value) ← dateFields value
  let value ← skip value 'T'
  let (hour, min, sec, nsec, value) ← clockFields value
  let (offset, value) ← zoneOffset value
  if value ≠ [] then none
  else if day < 1 ∨ day > daysIn month year then none
  else pure ⟨year, month, day, hour, min, sec, nsec, offset⟩

/-- The fields of the layout `2014-06-23` before its first `-`: a day of one or
two digits (overwritten by the later day field), a zero-padded month in
`1..12` and a minute of one or two digits below 60. -/
def shortHead (value : GoString) : Option (Nat × Nat × GoString) := do
  let (_, value) ← getnum value false
  let (month, value) ← numField value true 1 12
  let (min, value) ← numField value false 0 59
  pure (month, min, value)

/-- The two-digit year field `06`: two characters read by `atoi`, 69 to 99
meaning 1969 to 1999 and anything below 69 the years from 2000. -/
def shortYear (value : GoString) : Option (Int × GoString) :=
  if value.length < 2 then none
  else
    match atoi (value.take 2) with
    | some yy => some (if yy ≥ 69 then yy + 1900 else yy + 2000, value.drop 2)
    | none => none

/-- `time.Parse("2014-06-23", value)`, `some t` when `err == nil`.  Read against
the reference time, the layout `2014-06-23` is the field sequence day (`2`),
zero-padded month (`01`), minute (`4`), `-`, two-digit year (`06`), `-`,
day (`2`), twelve-hour clock hour (`3`). -/
def parseShortDate (value : GoString) : Option Time := do
  let (month, min, value) ← shortHead value
  let value ← skip value '-'
  let (year, value) ← shortYear value
  let value ← skip value '-'
  let (day, value) ← getnum value false
  let (hour, value) ← numField value false 0 12
  if value ≠ [] then none
  else if day < 1 ∨ day > daysIn month year then none
  else pure ⟨year, month, day, hour, min, 0, 0, 0⟩

/-! ## Values and records -/

/-- A Go `interface{}` as it occurs here: the contents of an unstructured
record (`nil`, `bool`, `float64`, `int64`, `string`, `[]interface{}`,
`map[string]interface{}`) and `time.Time`.  A map is an association list read
from the front. -/
inductive Value where
  | null
  | bool (b : Bool)
  | float (x : ℚ)
  | int (i : Int)
  | str (s : GoString)
  | time (t : Time)
  | list (xs : List Value)
  | object (fields : List (GoString × Value))

/-- Map lookup `m[key]`: `some v` when `ok`. -/
def mapGet {β : Type} (m : List (GoString × β)) (key : GoString) : Option β :=
  match m with
  | [] => none
  | (k, v) :: rest => if k = key then some v else mapGet rest key

/-- An `unstructured.Unstructured`, seen through what `extractValue` reads of
it.  `GetCreationTimestamp` returns a `metav1.Time` value (the zero time when
unset); `GetDeletionTimestamp` returns a `*metav1.Time`, `nil` when unset. -/
structure Record where
  GetName : GoString
  GetNamespace : GoString
  GetCreationTimestamp : Time
  GetDeletionTimestamp : Option Time
  GetLabels : List (GoString × GoString)
  GetAnnotations : List (GoString × GoString)
  Object : List (GoString × Value)

/-! ## `eval.go` -/

/-- The test `i, err := strconv.ParseUint(key, 10, 64); err == nil && i > 0`
that opens the loop body of `getNestedObject`: `some i` when it holds. -/
def segmentIndex (key : GoString) : Option Nat :=
  match ParseUint key with
  | some i => if i > 0 then some i else none
  | none => none

/-- The loop of `getNestedObject` over the key segments.  A `break` returns
the current `object` with `ok = false`; a failed map lookup has already
overwritten `object` with `nil`.  `none` is an index out of range at
`objectList[i-1]`. -/
def getNestedLoop (object : Value) (keys : List GoString) : Option (Value × Bool) :=
  match keys with
  | [] => some (object, true)
  | key :: rest =>
    match segmentIndex key with
    | some i =>
      match object with
      | .list objectList =>
        if i ≤ objectList.length then
          match objectList[i - 1]? with
          | some next => getNestedLoop next rest
          | none => none
        else some (object, false)
      | _ => some (object, false)
    | none =>
      match object with
      | .object objectMap =>
        match mapGet objectMap key with
        | some next => getNestedLoop next rest
        | none => some (.null, false)
      | _ => some (object, false)

/-- `getNestedObject(object, key)`. -/
def getNestedObject (object : Value) (key : GoString) : Option (Value × Bool) :=
  getNestedLoop object (Split key '.')

/-- The multiplier `stringValue` picks for the last character `suffix` of the
string (the `switch` on the source's one-character slice). -/
def siMultiplier (suffix : GoString) : Int :=
  if suffix = ['K'] then 1024
  else if suffix = ['M'] then 1024 ^ 2
  else if suffix = ['G'] then 1024 ^ 3
  else if suffix = ['T'] then 1024 ^ 4
  else if suffix = ['P'] then 1024 ^ 5
  else 0

/-- The string `s` that `stringValue` works on: `str` without its last
character when that is `i` and `str` is longer than one character. -/
def stripI (str : GoString) : GoString :=
  if str.length > 1 ∧ str.drop (str.length - 1) = ['i'] then str.take (str.length - 1) else str

/-- The block `if len(s) > 1 { ... }` of `stringValue`: `some x` when it
returns the number `x`.  The product `float64(i) * multiplier` is exact:
`float64(i)` is an integer of at most 53 significant bits and `multiplier` is
zero or a power of two. -/
def siNumber (s : GoString) : Option ℚ :=
  if s.length > 1 then
    let multiplier := siMultiplier (s.drop (s.length - 1))
    let digits := if multiplier ≥ 1 then s.take (s.length - 1) else s
    match ParseInt digits with
    | some i => some ((float64OfInt64 i * multiplier : Int) : ℚ)
    | none => none
  else none

/-- `stringValue(str)`. -/
def stringValue (str : GoString) : Value :=
  match siNumber (stripI str) with
  | some newValue => .float newValue
  | none =>
    if str = "true".toList ∨ str = "True".toList then .bool true
    else if str = "false".toList ∨ str = "False".toList then .bool false
    else
      match parseRFC3339 str with
      | some t => .time t
      | none =>
        match parseShortDate str with
        | some t => .time t
        | none => .str str

/-- The lookup policy `extractValue` applies to the label and annotation maps. -/
def mapValue (m : List (GoString × GoString)) (name : GoString) : Value :=
  match mapGet m name with
  | some value => if value.length = 0 then .bool true else stringValue value
  | none => .null

/-- `extractValue(item, key)`.  `none` is the nil-pointer dereference of
`item.GetDeletionTimestamp().Time`, and a panic of `getNestedObject`. -/
def extractValue (item : Record) (key : GoString) : Option (Value × Bool) :=
  if key = "name".toList then some (.str item.GetName, true)
  else if key = "namespace".toList then some (.str item.GetNamespace, true)
  else if key = "created".toList then some (.time item.GetCreationTimestamp, true)
  else if key = "deleted".toList then
    match item.GetDeletionTimestamp with
    | some t => some (.time t, true)
    | none => none
  else if key.length > 7 ∧ key.take 7 = "labels.".toList then
    some (mapValue item.GetLabels (key.drop 7), true)
  else if key.length > 12 ∧ key.take 12 = "annotations.".toList then
    some (mapValue item.GetAnnotations (key.drop 12), true)
  else
    match getNestedObject (.object item.Object) key with
    | none => none
    | some (object, ok) =>
      if !ok then some (.null, true)
      else
        match object with
        | .float x => some (.float x, true)
        | .int i => some (.float ((float64OfInt64 i : Int) : ℚ), true)
        | .str s => some (stringValue s, true)
        | _ => some (.null, true)

/-- `Factory(item)`. -/
def Factory (item : Record) : GoString → Option (Value × Bool) :=
  fun key => extractValue item key

/-- `Factory2(item1, item2, prefix1, prefix2)`. -/
def Factory2 (item1 item2 : Record) (prefix1 prefix2 : GoString) :
    GoString → Option (Value × Bool) :=
  fun key =>
    if HasPrefix key (prefix1 ++ ['.']) then
      extractValue item1 (TrimPrefix key (prefix1 ++ ['.']))
    else if HasPrefix key (prefix2 ++ ['.']) then
      extractValue item2 (TrimPrefix key (prefix2 ++ ['.']))
    else extractValue item2 key

/-! ## Notions of the specification -/

/-- Decimal digits of `n` as `strconv.Itoa` writes them: no sign, no leading
zero, `0` for zero. -/
def decimal (n : Nat) : GoString :=
  Nat.toDigits 10 n

/-- Rank of an SI suffix letter, `K` to `P` being 1 to 5. -/
def siRank (s : Char) : Option Nat :=
  if s = 'K' then some 1
  else if s = 'M' then some 2
  else if s = 'G' then some 3
  else if s = 'T' then some 4
  else if s = 'P' then some 5
  else none

/-- Reserved keys of the specification: `name`, `namespace`, `created`,
`deleted`, and every key with the prefix `labels.` or `annotations.`. -/
def isReserved (key : GoString) : Bool :=
  key == "name".toList || key == "namespace".toList || key == "created".toList ||
    key == "deleted".toList || HasPrefix key "labels.".toList ||
    HasPrefix key "annotations.".toList

/-- The tree `{a: [{b: 1}, {b: 2}]}`. -/
def exampleRoot : Value :=
  .object [("a".toList, .list [.object [("b".toList, .int 1)], .object [("b".toList, .int 2)]])]

/-- A record with only a name and a namespace: no timestamps, labels,
annotations or fields. -/
def bareRecord (name ns : GoString) : Record :=
  { GetName := name, GetNamespace := ns, GetCreationTimestamp := Time.zero,
    GetDeletionTimestamp := none, GetLabels := [], GetAnnotations := [], Object := [] }

/-- Coerced values of the specification: null, a boolean, a float number, a
string or a timestamp. -/
def isCoerced (v : Value) : Bool :=
  match v with
  | .null => true
  | .bool _ => true
  | .float _ => true
  | .str _ => true
  | .time _ => true
  | .int _ => false
  | .list _ => false
  | .object _ => false

/-- Two decimal digits of `n`, zero-padded. -/
def pad2 (n : Nat) : GoString :=
  [Nat.digitChar (n / 10 % 10), Nat.digitChar (n % 10)]

/-- Four decimal digits of `n`, zero-padded. -/
def pad4 (n : Nat) : GoString :=
  [Nat.digitChar (n / 1000 % 10), Nat.digitChar (n / 100 % 10), Nat.digitChar (n / 10 % 10),
    Nat.digitChar (n % 10)]

/-- The short date form of the specification: a 4-digit year, a 2-digit month
and a 2-digit day separated by hyphens. -/
def shortDate (year month day : Nat) : GoString :=
  pad4 year ++ '-' :: pad2 month ++ '-' :: pad2 day

/-- The SI suffix of the specification: a last letter in `{K,M,G,T,P}`,
optionally followed by `i`. -/
def hasSISuffix (s : GoString) : Bool :=
  let t := if s.getLast? = some 'i' then s.dropLast else s
  match t.getLast? with
  | some c => (siRank c).isSome
  | none => false

/-- The four boolean literals of the specification. -/
def isBoolLiteral (s : GoString) : Bool :=
  s == "true".toList || s == "True".toList || s == "false".toList || s == "False".toList

/-- The zone designator of an RFC 3339 string: `Z`, or an offset of hours and
minutes east (`+hh:mm`) or west (`-hh:mm`) of UTC. -/
inductive Zone where
  | utc
  | east (hh mm : Nat)
  | west (hh mm : Nat)

/-- The text of a zone designator. -/
def Zone.render (z : Zone) : GoString :=
  match z with
  | .utc => ['Z']
  | .east hh mm => '+' :: pad2 hh ++ ':' :: pad2 mm
  | .west hh mm => '-' :: pad2 hh ++ ':' :: pad2 mm

/-- The offset a zone designator denotes, in seconds east of UTC. -/
def Zone.offset (z : Zone) : Int :=
  match z with
  | .utc => 0
  | .east hh mm => (((hh * 60 + mm) * 60 : Nat) : Int)
  | .west hh mm => -(((hh * 60 + mm) * 60 : Nat) : Int)

/-- Hours below 24 and minutes below 60 in a zone designator. -/
def Zone.valid (z : Zone) : Prop :=
  match z with
  | .utc => True
  | .east hh mm => hh < 24 ∧ mm < 60
  | .west hh mm => hh < 24 ∧ mm < 60

/-- The optional fraction of a second of an RFC 3339 string: nothing, or a
point and the digits. -/
def fraction (digits : GoString) : GoString :=
  match digits with
  | [] => []
  | c :: cs => '.' :: c :: cs

/-- The nanoseconds the fraction digits denote, cut after the ninth digit. -/
def nanoseconds (digits : GoString) : Nat :=
  (digitsValue (digits.take 9) 0).getD 0 * 10 ^ (9 - (digits.take 9).length)

/-- An RFC 3339 string with an upper-case `T` and zone: date, `T`, time of day,
optional fraction of a second, zone designator. -/
def rfc3339 (year month day hour min sec : Nat) (digits : GoString) (zone : Zone) : GoString :=
  pad4 year ++ '-' :: pad2 month ++ '-' :: pad2 day ++ 'T' :: pad2 hour ++ ':' :: pad2 min ++
    ':' :: pad2 sec ++ (fraction digits ++ zone.render)

/-- The integer `x` is a `float64` nearest to the integer `i`: with `e` the
number of bits by which `|i|` exceeds the 53-bit significand (`e = 0` when it
fits), `x` is a multiple of `2^e`, the spacing of the `float64` values around
`i`, and lies within half that spacing of `i`.  For `|i| < 2^53` this is
`x = i`. -/
def isNearestFloat64 (x i : Int) : Prop :=
  ∃ e : Nat, i.natAbs < 2 ^ (53 + e) ∧ (e = 0 ∨ 2 ^ (52 + e) ≤ i.natAbs) ∧
    ((2 : Int) ^ e ∣ x) ∧ 2 * |x - i| ≤ 2 ^ e

/-! ## Lists and digits -/

theorem drop_last_append (l : GoString) (c : Char) :
    (l ++ [c]).drop ((l ++ [c]).length - 1) = [c] := by
  simp

theorem take_last_append (l : GoString) (c : Char) :
    (l ++ [c]).take ((l ++ [c]).length - 1) = l := by
  simp

theorem digitChar_isDigit (m : Nat) (hm : m < 10) :
    isDigit (Nat.digitChar m) = true ∧ digitVal (Nat.digitChar m) = m := by
  interval_cases m <;> decide

theorem isDigit_ne_sign (c : Char) (h : isDigit c = true) : c ≠ '+' ∧ c ≠ '-' ∧ c ≠ '.' := by
  refine ⟨?_, ?_, ?_⟩ <;> (rintro rfl; revert h; decide)

/-- Reading back what `Nat.toDigitsCore` wrote in front of `acc` continues
from the number written. -/
theorem digitsValue_toDigitsCore (fuel : Nat) :
    ∀ (n : Nat) (acc : GoString), n < fuel →
      digitsValue (Nat.toDigitsCore 10 fuel n acc) 0 = digitsValue acc n := by
  induction fuel with
  | zero => intro n acc h; omega
  | succ fuel ih =>
    intro n acc hn
    have hd := digitChar_isDigit (n % 10) (Nat.mod_lt _ (by norm_num))
    simp only [Nat.toDigitsCore]
    split
    · rename_i h0
      have : n < 10 := by omega
      simp only [digitsValue, hd.1, if_true, hd.2]
      congr 1
      omega
    · rw [ih (n / 10) _ (by omega)]
      simp only [digitsValue, hd.1, if_true, hd.2]
      congr 1
      omega

theorem toDigitsCore_ne_nil (fuel n : Nat) (acc : GoString) (h : 0 < fuel) :
    ∃ ds, ds ≠ [] ∧ Nat.toDigitsCore 10 fuel n acc = ds ++ acc := by
  induction fuel generalizing n acc with
  | zero => omega
  | succ fuel ih =>
    simp only [Nat.toDigitsCore]
    split
    · exact ⟨[Nat.digitChar (n % 10)], by simp, by simp⟩
    · by_cases hf : 0 < fuel
      · obtain ⟨ds, hne, hds⟩ := ih (n / 10) (Nat.digitChar (n % 10) :: acc) hf
        exact ⟨ds ++ [Nat.digitChar (n % 10)], by simp, by simp [hds]⟩
      · have : fuel = 0 := by omega
        subst this
        exact ⟨[Nat.digitChar (n % 10)], by simp, by simp [Nat.toDigitsCore]⟩

theorem digitsValue_decimal (n : Nat) : digitsValue (decimal n) 0 = some n := by
  unfold decimal Nat.toDigits
  rw [digitsValue_toDigitsCore (n + 1) n [] (by omega)]
  rfl

theorem decimal_ne_nil (n : Nat) : decimal n ≠ [] := by
  obtain ⟨ds, hne, hds⟩ := toDigitsCore_ne_nil (n + 1) n [] (by omega)
  unfold decimal Nat.toDigits
  rw [hds]
  simpa using hne

theorem digitsValue_all_digits (s : GoString) :
    ∀ (acc v : Nat), digitsValue s acc = some v → ∀ c ∈ s, isDigit c = true := by
  induction s with
  | nil => intro _ _ _ c hc; simp at hc
  | cons d ds ih =>
    intro acc v h c hc
    simp only [digitsValue] at h
    split at h
    · rename_i hd
      rcases List.mem_cons.mp hc with rfl | hmem
      · exact hd
      · exact ih _ _ h c hmem
    · cases h

theorem decimal_all_digits (n : Nat) : ∀ c ∈ decimal n, isDigit c = true :=
  digitsValue_all_digits _ 0 n (digitsValue_decimal n)

theorem ParseInt_decimal (n : Nat) (h : n < 2 ^ 63) : ParseInt (decimal n) = some (n : Int) := by
  have hv := digitsValue_decimal n
  have hd := decimal_all_digits n
  cases hs : decimal n with
  | nil => exact absurd hs (decimal_ne_nil n)
  | cons c cs =>
    rw [hs] at hv hd
    obtain ⟨h1, h2, _⟩ := isDigit_ne_sign c (hd c (List.mem_cons_self _ _))
    simp only [ParseInt, h1, h2, or_self, if_false, parseMagnitude, hv]
    simp
    omega

theorem ParseUint_decimal (n : Nat) :
    ParseUint (decimal n) = if n < 2 ^ 64 then some n else none := by
  have hv := digitsValue_decimal n
  cases hs : decimal n with
  | nil => exact absurd hs (decimal_ne_nil n)
  | cons c cs =>
    rw [hs] at hv
    simp only [ParseUint, hv]

theorem ParseUint_all_digits (key : GoString) (i : Nat) (h : ParseUint key = some i) :
    ∀ c ∈ key, isDigit c = true := by
  cases key with
  | nil => simp [ParseUint] at h
  | cons c cs =>
    simp only [ParseUint] at h
    cases hv : digitsValue (c :: cs) 0 with
    | none => rw [hv] at h; cases h
    | some n => exact digitsValue_all_digits _ 0 n hv

theorem Split_of_not_mem (s : GoString) (sep : Char) (h : sep ∉ s) : Split s sep = [s] := by
  induction s with
  | nil => rfl
  | cons c cs ih =>
    have hc : c ≠ sep := fun e => h (by simp [e])
    have hcs : sep ∉ cs := fun e => h (List.mem_cons_of_mem _ e)
    simp only [Split, hc, if_false, ih hcs]

theorem Split_of_digits (s : GoString) (h : ∀ c ∈ s, isDigit c = true) : Split s '.' = [s] :=
  Split_of_not_mem s '.' (fun hmem => (isDigit_ne_sign _ (h _ hmem)).2.2 rfl)

/-! ## SI numbers -/

theorem siRank_cases (s : Char) (k : Nat) (h : siRank s = some k) :
    (s = 'K' ∧ k = 1) ∨ (s = 'M' ∧ k = 2) ∨ (s = 'G' ∧ k = 3) ∨ (s = 'T' ∧ k = 4) ∨
      (s = 'P' ∧ k = 5) := by
  unfold siRank at h
  split_ifs at h with h1 h2 h3 h4 h5 <;> simp_all

theorem siMultiplier_rank (s : Char) (k : Nat) (h : siRank s = some k) :
    siMultiplier [s] = 1024 ^ k ∧ s ≠ 'i' := by
  rcases siRank_cases s k h with ⟨rfl, rfl⟩ | ⟨rfl, rfl⟩ | ⟨rfl, rfl⟩ | ⟨rfl, rfl⟩ | ⟨rfl, rfl⟩ <;>
    exact ⟨by decide, by decide⟩

theorem stripI_suffix (l : GoString) (s : Char) (hs : s ≠ 'i') : stripI (l ++ [s]) = l ++ [s] := by
  unfold stripI
  rw [drop_last_append, if_neg]
  rintro ⟨_, h⟩
  exact hs (by simpa using h)

theorem stripI_i (l : GoString) (hl : l ≠ []) : stripI (l ++ ['i']) = l := by
  unfold stripI
  rw [drop_last_append, take_last_append, if_pos]
  refine ⟨?_, rfl⟩
  have : l.length ≠ 0 := fun h0 => hl (List.length_eq_zero.mp h0)
  simp
  omega

theorem siNumber_decimal_suffix (n : Nat) (s : Char) (k : Nat) (hn : n < 2 ^ 63)
    (hs : siRank s = some k) :
    siNumber (decimal n ++ [s]) = some ((float64OfInt64 n * 1024 ^ k : Int) : ℚ) := by
  obtain ⟨hm, _⟩ := siMultiplier_rank s k hs
  have hlen : (decimal n).length ≠ 0 := fun h0 => decimal_ne_nil n (List.length_eq_zero.mp h0)
  have hpos : (1 : Int) ≤ 1024 ^ k := by
    have : (0 : Int) < 1024 ^ k := by positivity
    omega
  have h2 : (decimal n ++ [s]).length > 1 := by simp; omega
  unfold siNumber
  simp only [h2, if_true, drop_last_append, take_last_append, hm, ge_iff_le, hpos,
    ParseInt_decimal n hn]

/-! ## The conversion to `float64` -/

theorem roundShift_spec (a : Nat) (h : a < 2 ^ 64) :
    a < 2 ^ (53 + roundShift a) ∧ (roundShift a = 0 ∨ 2 ^ (52 + roundShift a) ≤ a) := by
  have hr : List.range 12 = [0, 1, 2, 3, 4, 5, 6, 7, 8, 9, 10, 11] := by decide
  unfold roundShift
  rw [hr]
  simp only [List.find?]
  norm_num at h ⊢
  repeat' split
  all_goals simp_all

theorem roundHalfEven_spec (a e : Nat) :
    ∃ m : Nat, roundHalfEven a e = m * 2 ^ e ∧ 2 * a ≤ 2 * (m * 2 ^ e) + 2 ^ e ∧
      2 * (m * 2 ^ e) ≤ 2 * a + 2 ^ e := by
  have hdiv := Nat.div_add_mod a (2 ^ e)
  have hlt : a % 2 ^ e < 2 ^ e := Nat.mod_lt _ (by positivity)
  have hmul : (a / 2 ^ e + 1) * 2 ^ e = a / 2 ^ e * 2 ^ e + 2 ^ e := by ring
  have hcomm : 2 ^ e * (a / 2 ^ e) = a / 2 ^ e * 2 ^ e := by ring
  rw [hcomm] at hdiv
  unfold roundHalfEven
  simp only
  split_ifs with hup
  · refine ⟨a / 2 ^ e + 1, rfl, ?_, ?_⟩
    · rw [hmul]; omega
    · rw [hmul]; omega
  · refine ⟨a / 2 ^ e, rfl, ?_, ?_⟩
    · omega
    · omega

theorem roundHalfEven_zero (a : Nat) : roundHalfEven a 0 = a := by
  simp [roundHalfEven, Nat.mod_one]

/-- `float64(i)` is a `float64` nearest to `i`, for every 64-bit integer. -/
theorem float64OfInt64_nearest (i : Int) (h : i.natAbs < 2 ^ 64) :
    isNearestFloat64 (float64OfInt64 i) i := by
  obtain ⟨h1, h2⟩ := roundShift_spec i.natAbs h
  obtain ⟨m, hm, hlo, hhi⟩ := roundHalfEven_spec i.natAbs (roundShift i.natAbs)
  refine ⟨roundShift i.natAbs, h1, h2, ?_, ?_⟩
  · unfold float64OfInt64
    simp only [hm]
    split_ifs
    · exact (Dvd.intro_left (m : Int) (by push_cast; rfl)).neg_right
    · exact Dvd.intro_left (m : Int) (by push_cast; rfl)
  · have hlo' : (2 * (i.natAbs : Int)) ≤ 2 * ((m * 2 ^ roundShift i.natAbs : Nat) : Int) +
        ((2 ^ roundShift i.natAbs : Nat) : Int) := by exact_mod_cast hlo
    have hhi' : 2 * ((m * 2 ^ roundShift i.natAbs : Nat) : Int) ≤ 2 * (i.natAbs : Int) +
        ((2 ^ roundShift i.natAbs : Nat) : Int) := by exact_mod_cast hhi
    have hp : ((2 ^ roundShift i.natAbs : Nat) : Int) = (2 : Int) ^ roundShift i.natAbs := by
      push_cast; rfl
    rw [hp] at hlo' hhi'
    unfold float64OfInt64
    simp only [hm]
    generalize ((m * 2 ^ roundShift i.natAbs : Nat) : Int) = v at hlo' hhi' ⊢
    generalize (2 : Int) ^ roundShift i.natAbs = P at hlo' hhi' ⊢
    split_ifs with hneg
    · rcases abs_cases (-v - i) with ⟨ha, _⟩ | ⟨ha, _⟩ <;> rw [ha] <;> omega
    · rcases abs_cases (v - i) with ⟨ha, _⟩ | ⟨ha, _⟩ <;> rw [ha] <;> omega

/-- `float64(i)` is `i` itself up to a magnitude of `2^53`. -/
theorem float64OfInt64_exact (i : Int) (h : i.natAbs ≤ 2 ^ 53) : float64OfInt64 i = i := by
  have hv : roundHalfEven i.natAbs (roundShift i.natAbs) = i.natAbs := by
    by_cases hlt : i.natAbs < 2 ^ 53
    · obtain ⟨_, h2⟩ := roundShift_spec i.natAbs (by omega)
      have h0 : roundShift i.natAbs = 0 := by
        rcases h2 with h0 | hge
        · exact h0
        · by_contra hne
          have : 2 ^ 53 ≤ 2 ^ (52 + roundShift i.natAbs) :=
            Nat.pow_le_pow_right (by norm_num) (by omega)
          omega
      rw [h0, roundHalfEven_zero]
    · have he : i.natAbs = 2 ^ 53 := by omega
      rw [he]
      decide
  unfold float64OfInt64
  simp only [hv]
  split_ifs <;> omega

/-! ## Claims -/

/-- C1 (amended): for every `n < 2^63` and every suffix letter `s` of rank `k`,
`stringValue` of the decimal digits of `n` followed by `s`, and of those digits
followed by `s` and `i`, is the number `float64(n) * 1024^k`, where
`float64(n)` is a `float64` nearest to `n`: for `n ≤ 2^53` the number is
`n * 1024^k` exactly, and beyond that `n` is rounded, ties to even
(`2^53 + 1` to `2^53`, `2^53 + 3` to `2^53 + 4`). -/
theorem stringValue_si_suffix (n : Nat) (s : Char) (k : Nat) (hn : n < 2 ^ 63)
    (hs : siRank s = some k) :
    (stringValue (decimal n ++ [s]) = Value.float ((float64OfInt64 n : ℚ) * 1024 ^ k) ∧
      stringValue (decimal n ++ [s, 'i']) =
        Value.float ((float64OfInt64 n : ℚ) * 1024 ^ k)) ∧
      isNearestFloat64 (float64OfInt64 n) n ∧
      (n ≤ 2 ^ 53 →
        stringValue (decimal n ++ [s]) = Value.float ((n : ℚ) * 1024 ^ k) ∧
          stringValue (decimal n ++ [s, 'i']) = Value.float ((n : ℚ) * 1024 ^ k)) ∧
      float64OfInt64 9007199254740993 = 9007199254740992 ∧
      float64OfInt64 9007199254740995 = 9007199254740996 ∧
      stringValue "1T".toList = Value.float 1099511627776 ∧
      stringValue "9007199254740993K".toList = Value.float 9223372036854775808 := by
  obtain ⟨_, hi⟩ := siMultiplier_rank s k hs
  have e : decimal n ++ [s, 'i'] = (decimal n ++ [s]) ++ ['i'] := by simp
  have hne : decimal n ++ [s] ≠ [] := by simp
  have h1 : stringValue (decimal n ++ [s]) =
      Value.float ((float64OfInt64 n : ℚ) * 1024 ^ k) := by
    simp only [stringValue, stripI_suffix _ s hi, siNumber_decimal_suffix n s k hn hs]
    push_cast
    rfl
  have h2 : stringValue (decimal n ++ [s, 'i']) =
      Value.float ((float64OfInt64 n : ℚ) * 1024 ^ k) := by
    rw [e]
    simp only [stringValue, stripI_i _ hne, siNumber_decimal_suffix n s k hn hs]
    push_cast
    rfl
  refine ⟨⟨h1, h2⟩, ?_, ?_, by decide, by decide, by rfl, by rfl⟩
  · exact float64OfInt64_nearest n (by simp only [Int.natAbs_ofNat]; omega)
  · intro hle
    have hx : float64OfInt64 (n : Int) = (n : Int) :=
      float64OfInt64_exact n (by simp only [Int.natAbs_ofNat]; exact hle)
    rw [h1, h2, hx]
    exact ⟨rfl, rfl⟩

/-- C1, witness: `123K` and `123Ki` are both the number `125952 = 123 * 1024`. -/
theorem stringValue_si_suffix_witness :
    (123 < 2 ^ 63 ∧ siRank 'K' = some 1) ∧
      stringValue "123K".toList = Value.float 125952 ∧
      stringValue "123Ki".toList = Value.float 125952 := by
  have h := (stringValue_si_suffix 123 'K' 1 (by decide) (by decide)).2.2.1 (by decide)
  have e : (((123 : Nat) : ℚ)) * 1024 ^ 1 = 125952 := by norm_num
  rw [e] at h
  exact ⟨⟨by decide, by decide⟩, h⟩

/-- C1 as stated fails at `n = 2^63` with suffix `K`: the digits do not fit a
signed 64-bit integer, and `stringValue` returns the string unchanged. -/
theorem stringValue_overflow_suffix :
    decimal 9223372036854775808 ++ ['K'] = "9223372036854775808K".toList ∧
      siRank 'K' = some 1 ∧
      stringValue (decimal 9223372036854775808 ++ ['K']) =
        Value.str "9223372036854775808K".toList ∧
      stringValue (decimal 9223372036854775808 ++ ['K']) ≠
        Value.float ((float64OfInt64 9223372036854775808 : ℚ) * 1024 ^ 1) := by
  have h : stringValue (decimal 9223372036854775808 ++ ['K']) =
      Value.str "9223372036854775808K".toList := by rfl
  refine ⟨by rfl, by decide, h, ?_⟩
  rw [h]
  exact fun e => Value.noConfusion e

/-- C2: `stringValue("123")` is the number 0, not the string `"123"`. -/
theorem stringValue_plain_digits_zero :
    stringValue "123".toList = Value.float 0 ∧
      stringValue "123".toList ≠ Value.str "123".toList := by
  have h : stringValue "123".toList = Value.float 0 := by rfl
  refine ⟨h, ?_⟩
  rw [h]
  exact fun e => Value.noConfusion e

theorem getNestedObject_single (node : Value) (key : GoString) (h : '.' ∉ key) :
    getNestedObject node key = getNestedLoop node [key] := by
  unfold getNestedObject
  rw [Split_of_not_mem key '.' h]

theorem segmentIndex_eq_some (key : GoString) (i : Nat) :
    segmentIndex key = some i ↔ ParseUint key = some i ∧ 0 < i := by
  unfold segmentIndex
  cases h : ParseUint key with
  | none => simp
  | some j =>
    by_cases hj : j > 0
    · simp only [hj, if_true, Option.some.injEq]
      constructor
      · rintro rfl; exact ⟨rfl, hj⟩
      · rintro ⟨rfl, _⟩; rfl
    · simp only [hj, if_false, Option.some.injEq]
      constructor
      · intro h0; cases h0
      · rintro ⟨rfl, h0⟩; exact absurd h0 hj

theorem segmentIndex_eq_none (key : GoString) :
    segmentIndex key = none ↔ ¬ ∃ i, ParseUint key = some i ∧ 0 < i := by
  constructor
  · rintro h ⟨i, hi⟩
    rw [(segmentIndex_eq_some key i).2 hi] at h
    cases h
  · intro h
    cases hs : segmentIndex key with
    | none => rfl
    | some i => exact absurd ⟨i, (segmentIndex_eq_some key i).1 hs⟩ h

theorem getNestedLoop_index_list (xs : List Value) (key : GoString) (i : Nat)
    (hp : ParseUint key = some i) (h1 : 1 ≤ i) (h2 : i ≤ xs.length) :
    getNestedLoop (.list xs) [key] = some (xs.get ⟨i - 1, by omega⟩, true) := by
  have hidx := (segmentIndex_eq_some key i).2 ⟨hp, h1⟩
  have hget : xs[i - 1]? = some (xs.get ⟨i - 1, by omega⟩) := by
    rw [List.getElem?_eq_getElem (by omega)]
    rfl
  simp only [getNestedLoop, hidx, h2, if_true, hget]

theorem getNestedLoop_index_beyond (xs : List Value) (key : GoString) (i : Nat)
    (hp : ParseUint key = some i) (h1 : 1 ≤ i) (h2 : xs.length < i) :
    getNestedLoop (.list xs) [key] = some (.list xs, false) := by
  have hidx := (segmentIndex_eq_some key i).2 ⟨hp, h1⟩
  have hnot : ¬ i ≤ xs.length := by omega
  simp only [getNestedLoop, hidx, hnot, if_false]

theorem getNestedLoop_field_list (xs : List Value) (key : GoString)
    (hp : ParseUint key = none) :
    getNestedLoop (.list xs) [key] = some (.list xs, false) := by
  have hidx : segmentIndex key = none := by
    rw [segmentIndex_eq_none]
    rintro ⟨i, hi, _⟩
    rw [hp] at hi
    cases hi
  simp only [getNestedLoop, hidx]

theorem getNestedLoop_index_object (fields : List (GoString × Value)) (key : GoString) (i : Nat)
    (hp : ParseUint key = some i) (h1 : 0 < i) :
    getNestedLoop (.object fields) [key] = some (.object fields, false) := by
  have hidx := (segmentIndex_eq_some key i).2 ⟨hp, h1⟩
  simp only [getNestedLoop, hidx]

theorem getNestedLoop_field_object (fields : List (GoString × Value)) (key : GoString)
    (hp : ¬ ∃ i, ParseUint key = some i ∧ 0 < i) :
    getNestedLoop (.object fields) [key] =
      match mapGet fields key with
      | some v => some (v, true)
      | none => some (.null, false) := by
  have hidx := (segmentIndex_eq_none key).2 hp
  simp only [getNestedLoop, hidx]

/-- C3: on a list of `n` elements (`n` a Go slice length, below `2^63`) the
key `decimal(i)` returns the `i`-th element counted from 1 with found=true
when `1 ≤ i ≤ n` and found=false when `i > n`; on `{a: [{b:1},{b:2}]}` the key
`a.2.b` yields `(2, true)` and `a.9.b` yields found=false. -/
theorem getNestedObject_list_index (xs : List Value) (i : Nat) (hlen : xs.length < 2 ^ 63) :
    (∀ (h1 : 1 ≤ i) (h2 : i ≤ xs.length),
        getNestedObject (.list xs) (decimal i) = some (xs.get ⟨i - 1, by omega⟩, true)) ∧
      (xs.length < i → getNestedObject (.list xs) (decimal i) = some (.list xs, false)) ∧
      getNestedObject exampleRoot "a.2.b".toList = some (.int 2, true) ∧
      ∃ v, getNestedObject exampleRoot "a.9.b".toList = some (v, false) := by
  have hdot : '.' ∉ decimal i := fun hmem =>
    (isDigit_ne_sign _ (decimal_all_digits i _ hmem)).2.2 rfl
  refine ⟨?_, ?_, by rfl, ⟨_, by rfl⟩⟩
  · intro h1 h2
    have hp : ParseUint (decimal i) = some i := by
      rw [ParseUint_decimal, if_pos (by omega)]
    rw [getNestedObject_single _ _ hdot]
    exact getNestedLoop_index_list xs _ i hp h1 h2
  · intro h2
    rw [getNestedObject_single _ _ hdot]
    by_cases hi : i < 2 ^ 64
    · have hp : ParseUint (decimal i) = some i := by rw [ParseUint_decimal, if_pos hi]
      exact getNestedLoop_index_beyond xs _ i hp (by omega) h2
    · have hp : ParseUint (decimal i) = none := by rw [ParseUint_decimal, if_neg hi]
      exact getNestedLoop_field_list xs _ hp

/-- C3, witness: the second element of a two-element list. -/
theorem getNestedObject_list_index_witness :
    getNestedObject (.list [.int 7, .int 8]) (decimal 2) = some (.int 8, true) :=
  (getNestedObject_list_index [.int 7, .int 8] 2 (by decide)).1 (by decide) (by decide)

/-- C4 (amended): a segment that is a strictly positive decimal integer of at
most 64 bits is a list index whatever the node: on a List it selects the
element at that position (found=false beyond the length), and on every other
node, also an Object with a field of that name, the traversal fails with
found=false; any other segment is a field name, and on an Object holding that
field it returns the field's node with found=true. -/
theorem getNestedObject_object_segment (fields : List (GoString × Value)) (key : GoString) :
    (∀ i, ParseUint key = some i → 0 < i →
        getNestedObject (.object fields) key = some (.object fields, false)) ∧
      ((¬ ∃ i, ParseUint key = some i ∧ 0 < i) → '.' ∉ key →
        ∀ v, mapGet fields key = some v →
          getNestedObject (.object fields) key = some (v, true)) ∧
      (∀ i, ParseUint key = some i → 0 < i →
        ∀ (xs : List Value) (h : i - 1 < xs.length),
          getNestedObject (.list xs) key = some (xs.get ⟨i - 1, h⟩, true)) ∧
      (∀ i, ParseUint key = some i → 0 < i → ∀ xs : List Value, xs.length < i →
        getNestedObject (.list xs) key = some (.list xs, false)) ∧
      (∀ i, ParseUint key = some i → 0 < i → ∀ node : Value, (∀ xs, node ≠ .list xs) →
        getNestedObject node key = some (node, false)) := by
  have hdot : ∀ i, ParseUint key = some i → '.' ∉ key := fun i hp hmem =>
    (isDigit_ne_sign _ (ParseUint_all_digits key i hp _ hmem)).2.2 rfl
  refine ⟨?_, ?_, ?_, ?_, ?_⟩
  · intro i hp hi
    rw [getNestedObject_single _ _ (hdot i hp)]
    exact getNestedLoop_index_object fields key i hp hi
  · intro hp hd v hv
    rw [getNestedObject_single _ _ hd, getNestedLoop_field_object fields key hp, hv]
  · intro i hp hi xs h
    rw [getNestedObject_single _ _ (hdot i hp)]
    exact getNestedLoop_index_list xs key i hp hi (by omega)
  · intro i hp hi xs hlt
    rw [getNestedObject_single _ _ (hdot i hp)]
    exact getNestedLoop_index_beyond xs key i hp hi hlt
  · intro i hp hi node hnode
    have hidx := (segmentIndex_eq_some key i).2 ⟨hp, hi⟩
    rw [getNestedObject_single _ _ (hdot i hp)]
    cases node with
    | list xs => exact absurd rfl (hnode xs)
    | _ => simp only [getNestedLoop, hidx]

/-- C4, witness: on `{"1": "x", "n": "y"}` the segment `1` fails and the
segment `n` finds its field; on the list `["x", "y"]` the segment `2` selects
`"y"` and the segment `3` fails; on the string `"x"` the segment `1` fails. -/
theorem getNestedObject_object_segment_witness :
    getNestedObject (.object [("1".toList, .str "x".toList), ("n".toList, .str "y".toList)])
        "1".toList =
        some (.object [("1".toList, .str "x".toList), ("n".toList, .str "y".toList)], false) ∧
      getNestedObject (.object [("1".toList, .str "x".toList), ("n".toList, .str "y".toList)])
        "n".toList = some (.str "y".toList, true) ∧
      getNestedObject (.list [.str "x".toList, .str "y".toList]) "2".toList =
        some (.str "y".toList, true) ∧
      getNestedObject (.list [.str "x".toList, .str "y".toList]) "3".toList =
        some (.list [.str "x".toList, .str "y".toList], false) ∧
      getNestedObject (.str "x".toList) "1".toList = some (.str "x".toList, false) :=
  ⟨(getNestedObject_object_segment _ "1".toList).1 1 (by decide) (by decide),
    (getNestedObject_object_segment _ "n".toList).2.1 (by decide) (by decide) _ (by rfl),
    (getNestedObject_object_segment [] "2".toList).2.2.1 2 (by decide) (by decide)
      [.str "x".toList, .str "y".toList] (by decide),
    (getNestedObject_object_segment [] "3".toList).2.2.2.1 3 (by decide) (by decide)
      [.str "x".toList, .str "y".toList] (by decide),
    (getNestedObject_object_segment [] "1".toList).2.2.2.2 1 (by decide) (by decide)
      (.str "x".toList) (fun xs e => Value.noConfusion e)⟩

/-- C4 as stated fails on the Object `{"1": "x"}`: the field `1` exists, yet
`getNestedObject(obj, "1")` reports found=false. -/
theorem getNestedObject_object_digit_field :
    mapGet [("1".toList, Value.str "x".toList)] "1".toList = some (Value.str "x".toList) ∧
      getNestedObject (.object [("1".toList, .str "x".toList)]) "1".toList =
        some (.object [("1".toList, .str "x".toList)], false) ∧
      getNestedObject (.object [("1".toList, .str "x".toList)]) "1".toList ≠
        some (.str "x".toList, true) := by
  have h : getNestedObject (.object [("1".toList, .str "x".toList)]) "1".toList =
      some (.object [("1".toList, .str "x".toList)], false) := by rfl
  refine ⟨by rfl, h, ?_⟩
  rw [h]
  simp

/-! ## `extractValue` -/

theorem HasPrefix_iff (s pre : GoString) : HasPrefix s pre = true ↔ pre <+: s := by
  unfold HasPrefix
  rw [List.prefix_iff_eq_take, beq_iff_eq]
  exact eq_comm

theorem TrimPrefix_append (pre rest : GoString) : TrimPrefix (pre ++ rest) pre = rest := by
  have h : HasPrefix (pre ++ rest) pre = true := (HasPrefix_iff _ _).2 (List.prefix_append _ _)
  simp [TrimPrefix, h]

theorem getNestedLoop_isSome (keys : List GoString) :
    ∀ node : Value, ∃ r, getNestedLoop node keys = some r := by
  induction keys with
  | nil => intro node; exact ⟨_, rfl⟩
  | cons key rest ih =>
    intro node
    simp only [getNestedLoop]
    cases hidx : segmentIndex key with
    | some i =>
      have hpos := ((segmentIndex_eq_some key i).1 hidx).2
      cases node with
      | list xs =>
        simp only
        by_cases hle : i ≤ xs.length
        · rw [if_pos hle, List.getElem?_eq_getElem (by omega)]
          exact ih _
        · rw [if_neg hle]
          exact ⟨_, rfl⟩
      | _ => exact ⟨_, rfl⟩
    | none =>
      cases node with
      | object fields =>
        simp only
        cases mapGet fields key with
        | some next => exact ih next
        | none => exact ⟨_, rfl⟩
      | _ => exact ⟨_, rfl⟩

theorem getNestedObject_isSome (node : Value) (key : GoString) :
    ∃ r, getNestedObject node key = some r :=
  getNestedLoop_isSome _ node

theorem extractValue_labels (item : Record) (X : GoString) (hX : X ≠ []) :
    extractValue item ("labels.".toList ++ X) = some (mapValue item.GetLabels X, true) := by
  obtain ⟨c, cs, rfl⟩ := List.exists_cons_of_ne_nil hX
  have e : "labels.".toList = ['l', 'a', 'b', 'e', 'l', 's', '.'] := rfl
  have e1 : "name".toList = ['n', 'a', 'm', 'e'] := rfl
  have e2 : "namespace".toList = ['n', 'a', 'm', 'e', 's', 'p', 'a', 'c', 'e'] := rfl
  have e3 : "created".toList = ['c', 'r', 'e', 'a', 't', 'e', 'd'] := rfl
  have e4 : "deleted".toList = ['d', 'e', 'l', 'e', 't', 'e', 'd'] := rfl
  unfold extractValue
  rw [e, e1, e2, e3, e4]
  simp

theorem extractValue_annotations (item : Record) (X : GoString) (hX : X ≠ []) :
    extractValue item ("annotations.".toList ++ X) =
      some (mapValue item.GetAnnotations X, true) := by
  obtain ⟨c, cs, rfl⟩ := List.exists_cons_of_ne_nil hX
  have e : "annotations.".toList =
      ['a', 'n', 'n', 'o', 't', 'a', 't', 'i', 'o', 'n', 's', '.'] := rfl
  have e0 : "labels.".toList = ['l', 'a', 'b', 'e', 'l', 's', '.'] := rfl
  have e1 : "name".toList = ['n', 'a', 'm', 'e'] := rfl
  have e2 : "namespace".toList = ['n', 'a', 'm', 'e', 's', 'p', 'a', 'c', 'e'] := rfl
  have e3 : "created".toList = ['c', 'r', 'e', 'a', 't', 'e', 'd'] := rfl
  have e4 : "deleted".toList = ['d', 'e', 'l', 'e', 't', 'e', 'd'] := rfl
  unfold extractValue
  rw [e, e0, e1, e2, e3, e4]
  simp

theorem mapValue_cases (m : List (GoString × GoString)) (X : GoString) :
    (mapGet m X = some [] → mapValue m X = Value.bool true) ∧
      (mapGet m X = none → mapValue m X = Value.null) ∧
      (∀ v, mapGet m X = some v → v ≠ [] → mapValue m X = stringValue v) := by
  refine ⟨?_, ?_, ?_⟩
  · intro h; simp [mapValue, h]
  · intro h; simp [mapValue, h]
  · intro v h hv
    have : v.length ≠ 0 := fun h0 => hv (List.length_eq_zero.mp h0)
    simp [mapValue, h, this]

/-- C5: for every record and non-empty name `X`, `extractValue` on
`labels.X` is `(true, true)` when `X` is a label with the empty string as
value, `(null, true)` when `X` is not a label, and `(stringValue(v), true)`
when `X` is a label with a non-empty value `v`; the same holds for
`annotations.X` and the annotation map; labels `{"tier": "gold"}` give the
string `gold`. -/
theorem extractValue_labels_policy (item : Record) (X : GoString) (hX : X ≠ []) :
    ((mapGet item.GetLabels X = some [] →
        extractValue item ("labels.".toList ++ X) = some (Value.bool true, true)) ∧
      (mapGet item.GetLabels X = none →
        extractValue item ("labels.".toList ++ X) = some (Value.null, true)) ∧
      (∀ v, mapGet item.GetLabels X = some v → v ≠ [] →
        extractValue item ("labels.".toList ++ X) = some (stringValue v, true))) ∧
    ((mapGet item.GetAnnotations X = some [] →
        extractValue item ("annotations.".toList ++ X) = some (Value.bool true, true)) ∧
      (mapGet item.GetAnnotations X = none →
        extractValue item ("annotations.".toList ++ X) = some (Value.null, true)) ∧
      (∀ v, mapGet item.GetAnnotations X = some v → v ≠ [] →
        extractValue item ("annotations.".toList ++ X) = some (stringValue v, true))) ∧
    extractValue { item with GetLabels := [("tier".toList, "gold".toList)] }
        "labels.tier".toList = some (Value.str "gold".toList, true) := by
  obtain ⟨l1, l2, l3⟩ := mapValue_cases item.GetLabels X
  obtain ⟨a1, a2, a3⟩ := mapValue_cases item.GetAnnotations X
  rw [extractValue_labels item X hX, extractValue_annotations item X hX]
  refine ⟨⟨?_, ?_, ?_⟩, ⟨?_, ?_, ?_⟩, by rfl⟩
  · intro h; rw [l1 h]
  · intro h; rw [l2 h]
  · intro v h hv; rw [l3 v h hv]
  · intro h; rw [a1 h]
  · intro h; rw [a2 h]
  · intro v h hv; rw [a3 v h hv]

/-- C5, witness: with labels `{"tier": "", "zone": "eu"}` the key
`labels.tier` is `true`, and with no annotations `annotations.tier` is null. -/
theorem extractValue_labels_policy_witness :
    extractValue
        { bareRecord "pod".toList "ns".toList with
          GetLabels := [("tier".toList, []), ("zone".toList, "eu".toList)] }
        ("labels.".toList ++ "tier".toList) = some (Value.bool true, true) ∧
      extractValue
        { bareRecord "pod".toList "ns".toList with
          GetLabels := [("tier".toList, []), ("zone".toList, "eu".toList)] }
        ("annotations.".toList ++ "tier".toList) = some (Value.null, true) :=
  ⟨(extractValue_labels_policy _ "tier".toList (by decide)).1.1 (by rfl),
    (extractValue_labels_policy _ "tier".toList (by decide)).2.1.2.1 (by rfl)⟩

theorem extractValue_unreserved_eq (item : Record) (key : GoString) (h : isReserved key = false) :
    extractValue item key =
      match getNestedObject (.object item.Object) key with
      | none => none
      | some (object, ok) =>
        if !ok then some (.null, true)
        else
          match object with
          | .float x => some (.float x, true)
          | .int i => some (.float ((float64OfInt64 i : Int) : ℚ), true)
          | .str s => some (stringValue s, true)
          | _ => some (.null, true) := by
  simp only [isReserved, Bool.or_eq_false_iff, beq_eq_false_iff_ne, ne_eq] at h
  obtain ⟨⟨⟨⟨⟨h1, h2⟩, h3⟩, h4⟩, h5⟩, h6⟩ := h
  have h5' : ¬ (key.length > 7 ∧ key.take 7 = "labels.".toList) := by
    rintro ⟨_, ht⟩
    have : HasPrefix key "labels.".toList = true := by
      unfold HasPrefix
      rw [beq_iff_eq]
      exact ht
    rw [h5] at this
    cases this
  have h6' : ¬ (key.length > 12 ∧ key.take 12 = "annotations.".toList) := by
    rintro ⟨_, ht⟩
    have : HasPrefix key "annotations.".toList = true := by
      unfold HasPrefix
      rw [beq_iff_eq]
      exact ht
    rw [h6] at this
    cases this
  unfold extractValue
  rw [if_neg h1, if_neg h2, if_neg h3, if_neg h4, if_neg h5', if_neg h6']

/-- C6 (amended): for every record and every key that is not reserved,
`extractValue` returns the number itself when the path resolves to a float
node, a `float64` nearest to the integer when it resolves to an integer node
(the integer itself up to a magnitude of `2^53`, rounded beyond, ties to
even), `stringValue(s)` when it
resolves to a string node `s`, and null when it resolves to any other node or
does not resolve; found is true in every case, and one of the cases applies. -/
theorem extractValue_generic (item : Record) (key : GoString) (h : isReserved key = false) :
    (∀ x, getNestedObject (.object item.Object) key = some (.float x, true) →
        extractValue item key = some (.float x, true)) ∧
      (∀ i, getNestedObject (.object item.Object) key = some (.int i, true) →
        extractValue item key = some (.float ((float64OfInt64 i : Int) : ℚ), true)) ∧
      (∀ s, getNestedObject (.object item.Object) key = some (.str s, true) →
        extractValue item key = some (stringValue s, true)) ∧
      (∀ node, getNestedObject (.object item.Object) key = some (node, true) →
        (∀ x, node ≠ .float x) → (∀ i, node ≠ .int i) → (∀ s, node ≠ .str s) →
        extractValue item key = some (.null, true)) ∧
      (∀ node, getNestedObject (.object item.Object) key = some (node, false) →
        extractValue item key = some (.null, true)) ∧
      (∃ node ok, getNestedObject (.object item.Object) key = some (node, ok)) ∧
      (∃ v, extractValue item key = some (v, true)) ∧
      (∀ i : Int, getNestedObject (.object item.Object) key = some (.int i, true) →
        i.natAbs ≤ 2 ^ 53 → extractValue item key = some (.float (i : ℚ), true)) ∧
      (∀ i : Int, getNestedObject (.object item.Object) key = some (.int i, true) →
        i.natAbs ≤ 2 ^ 63 →
        ∃ x : Int, extractValue item key = some (.float (x : ℚ), true) ∧
          isNearestFloat64 x i) ∧
      float64OfInt64 3 = 3 ∧
      float64OfInt64 (-9007199254740993) = -9007199254740992 ∧
      float64OfInt64 (-9007199254740995) = -9007199254740996 := by
  rw [extractValue_unreserved_eq item key h]
  refine ⟨?_, ?_, ?_, ?_, ?_, ?_, ?_, ?_, ?_, by decide, by decide, by decide⟩
  · intro x hx; rw [hx]; rfl
  · intro i hi; rw [hi]; rfl
  · intro s hs; rw [hs]; rfl
  · intro node hn hf hi hs
    rw [hn]
    cases node with
    | float x => exact absurd rfl (hf x)
    | int i => exact absurd rfl (hi i)
    | str s => exact absurd rfl (hs s)
    | _ => rfl
  · intro node hn; rw [hn]; rfl
  · obtain ⟨⟨node, ok⟩, hr⟩ := getNestedObject_isSome (.object item.Object) key
    exact ⟨node, ok, hr⟩
  · obtain ⟨⟨node, ok⟩, hr⟩ := getNestedObject_isSome (.object item.Object) key
    rw [hr]
    cases ok with
    | false => exact ⟨_, rfl⟩
    | true =>
      cases node with
      | float x => exact ⟨_, rfl⟩
      | int i => exact ⟨_, rfl⟩
      | str s => exact ⟨_, rfl⟩
      | _ => exact ⟨_, rfl⟩
  · intro i hi hle
    rw [hi]
    simp only [Bool.not_true, Bool.false_eq_true, if_false, float64OfInt64_exact i hle]
  · intro i hi hle
    rw [hi]
    exact ⟨float64OfInt64 i, rfl, float64OfInt64_nearest i (by omega)⟩

/-- C6, witness: on a record with the field `replicas: 3` (an integer) the key
`replicas` is the float 3, and the absent key `spec.x` is null. -/
theorem extractValue_generic_witness :
    extractValue
        { bareRecord "pod".toList "ns".toList with Object := [("replicas".toList, .int 3)] }
        "replicas".toList = some (.float 3, true) ∧
      extractValue
        { bareRecord "pod".toList "ns".toList with Object := [("replicas".toList, .int 3)] }
        "spec.x".toList = some (.null, true) :=
  ⟨(extractValue_generic _ "replicas".toList (by decide)).2.2.2.2.2.2.2.1 3 (by rfl)
      (by decide),
    (extractValue_generic _ "spec.x".toList (by decide)).2.2.2.2.1 .null (by rfl)⟩

/-- C6 as stated fails on the integer node `2^53 + 1 = 9007199254740993`: the
number returned is `2^53 = 9007199254740992`, not the same number. -/
theorem extractValue_generic_rounded :
    isReserved "n".toList = false ∧
      getNestedObject (.object [("n".toList, .int 9007199254740993)]) "n".toList =
        some (.int 9007199254740993, true) ∧
      extractValue
        { bareRecord "pod".toList "ns".toList with
          Object := [("n".toList, .int 9007199254740993)] }
        "n".toList = some (.float 9007199254740992, true) ∧
      extractValue
        { bareRecord "pod".toList "ns".toList with
          Object := [("n".toList, .int 9007199254740993)] }
        "n".toList ≠ some (.float 9007199254740993, true) := by
  have hv : extractValue
      { bareRecord "pod".toList "ns".toList with
        Object := [("n".toList, .int 9007199254740993)] }
      "n".toList = some (.float 9007199254740992, true) := by rfl
  refine ⟨by decide, by rfl, hv, ?_⟩
  rw [hv]
  intro e
  have e' : (9007199254740992 : ℚ) = 9007199254740993 := by
    injection e with e1
    injection e1 with e2
    injection e2
  norm_num at e'

/-- C7: on a record whose deletion timestamp is not set the key `deleted`
makes `extractValue` panic (the nil result of `GetDeletionTimestamp` is
dereferenced), while `created` on an unset creation timestamp returns the
zero time. -/
theorem extractValue_deleted_unset (item : Record) :
    extractValue { item with GetDeletionTimestamp := none } "deleted".toList = none ∧
      extractValue { item with GetCreationTimestamp := Time.zero } "created".toList =
        some (Value.time Time.zero, true) :=
  ⟨by rfl, by rfl⟩

theorem extractValue_returns (item : Record) (key : GoString) :
    (key = "deleted".toList ∧ item.GetDeletionTimestamp = none ∧ extractValue item key = none) ∨
      ∃ v, extractValue item key = some (v, true) := by
  by_cases h4 : key = "deleted".toList
  · subst h4
    cases hd : item.GetDeletionTimestamp with
    | none =>
      left
      refine ⟨rfl, rfl, ?_⟩
      unfold extractValue
      rw [if_neg (by decide), if_neg (by decide), if_neg (by decide), if_pos rfl, hd]
    | some t =>
      right
      refine ⟨Value.time t, ?_⟩
      unfold extractValue
      rw [if_neg (by decide), if_neg (by decide), if_neg (by decide), if_pos rfl, hd]
  · right
    unfold extractValue
    rw [if_neg h4]
    split_ifs
    · exact ⟨_, rfl⟩
    · exact ⟨_, rfl⟩
    · exact ⟨_, rfl⟩
    · exact ⟨_, rfl⟩
    · exact ⟨_, rfl⟩
    · obtain ⟨⟨node, ok⟩, hr⟩ := getNestedObject_isSome (.object item.Object) key
      rw [hr]
      cases ok with
      | false => exact ⟨_, rfl⟩
      | true =>
        cases node with
        | float x => exact ⟨_, rfl⟩
        | int i => exact ⟨_, rfl⟩
        | str s => exact ⟨_, rfl⟩
        | _ => exact ⟨_, rfl⟩

theorem extractValue_flag (item : Record) (key : GoString) (v : Value) (found : Bool)
    (h : extractValue item key = some (v, found)) : found = true := by
  rcases extractValue_returns item key with ⟨_, _, hn⟩ | ⟨w, hw⟩
  · rw [hn] at h; cases h
  · rw [hw] at h
    cases h
    rfl

/-- C8: for every record and key, whenever `extractValue` returns, its found
flag is true, and it returns for every key except `deleted` on a record
without deletion timestamp; the same flag comes out of the functions built by
`Factory` and `Factory2`. -/
theorem extractValue_found_true (item : Record) (key : GoString) :
    (∀ v found, extractValue item key = some (v, found) → found = true) ∧
      (¬ (key = "deleted".toList ∧ item.GetDeletionTimestamp = none) →
        ∃ v, extractValue item key = some (v, true)) ∧
      (∀ v found, Factory item key = some (v, found) → found = true) ∧
      (∀ (item1 : Record) (prefix1 prefix2 : GoString) v found,
        Factory2 item1 item prefix1 prefix2 key = some (v, found) → found = true) := by
  refine ⟨extractValue_flag item key, ?_, extractValue_flag item key, ?_⟩
  · intro hnot
    rcases extractValue_returns item key with ⟨h1, h2, _⟩ | h
    · exact absurd ⟨h1, h2⟩ hnot
    · exact h
  · intro item1 prefix1 prefix2 v found h
    unfold Factory2 at h
    split_ifs at h
    · exact extractValue_flag _ _ v found h
    · exact extractValue_flag _ _ v found h
    · exact extractValue_flag _ _ v found h

/-- C8, witness: the absent key `spec.x` of a bare record is reported as null
with found=true. -/
theorem extractValue_found_true_witness :
    ∃ v, extractValue (bareRecord "pod".toList "ns".toList) "spec.x".toList = some (v, true) :=
  (extractValue_found_true (bareRecord "pod".toList "ns".toList) "spec.x".toList).2.1
    (by decide)

/-- C9: `Factory2(A, B, pA, pB)(k)` is `extractValue(A, rest)` when
`k = pA + "." + rest`; else `extractValue(B, rest)` when `k = pB + "." + rest`;
else `extractValue(B, k)` on the whole key.  With the prefixes `old` and `new`
the key `new.name` yields the name of `B` and `unprefixed.x` yields
`extractValue(B, "unprefixed.x")`. -/
theorem Factory2_routes (A B : Record) (pA pB k : GoString) :
    (∀ rest, k = pA ++ '.' :: rest → Factory2 A B pA pB k = extractValue A rest) ∧
      (¬ (pA ++ ['.']) <+: k → ∀ rest, k = pB ++ '.' :: rest →
        Factory2 A B pA pB k = extractValue B rest) ∧
      (¬ (pA ++ ['.']) <+: k → ¬ (pB ++ ['.']) <+: k →
        Factory2 A B pA pB k = extractValue B k) ∧
      Factory2 A B "old".toList "new".toList "new.name".toList =
        some (Value.str B.GetName, true) ∧
      Factory2 A B "old".toList "new".toList "unprefixed.x".toList =
        extractValue B "unprefixed.x".toList := by
  refine ⟨?_, ?_, ?_, by rfl, by rfl⟩
  · intro rest hk
    have e : k = (pA ++ ['.']) ++ rest := by rw [hk]; simp
    have hp : HasPrefix k (pA ++ ['.']) = true := by
      rw [HasPrefix_iff, e]; exact List.prefix_append _ _
    unfold Factory2
    rw [if_pos hp, e, TrimPrefix_append]
  · intro hA rest hk
    have e : k = (pB ++ ['.']) ++ rest := by rw [hk]; simp
    have hpA : ¬ HasPrefix k (pA ++ ['.']) = true := fun h => hA ((HasPrefix_iff _ _).1 h)
    have hp : HasPrefix k (pB ++ ['.']) = true := by
      rw [HasPrefix_iff, e]; exact List.prefix_append _ _
    unfold Factory2
    rw [if_neg hpA, if_pos hp, e, TrimPrefix_append]
  · intro hA hB
    have hpA : ¬ HasPrefix k (pA ++ ['.']) = true := fun h => hA ((HasPrefix_iff _ _).1 h)
    have hpB : ¬ HasPrefix k (pB ++ ['.']) = true := fun h => hB ((HasPrefix_iff _ _).1 h)
    unfold Factory2
    rw [if_neg hpA, if_neg hpB]

/-- C9, witness: with the prefixes `old` and `new`, `old.name` is the name of
the first record. -/
theorem Factory2_routes_witness :
    Factory2 (bareRecord "a".toList []) (bareRecord "b".toList []) "old".toList "new".toList
        ("old".toList ++ '.' :: "name".toList) =
      extractValue (bareRecord "a".toList []) "name".toList :=
  (Factory2_routes (bareRecord "a".toList []) (bareRecord "b".toList []) "old".toList
    "new".toList ("old".toList ++ '.' :: "name".toList)).1 "name".toList rfl

/-- C10: `stringValue(s)` is the boolean true exactly when `s` is `true` or
`True`, and the boolean false exactly when `s` is `false` or `False`; so
`TRUE` and `flase` yield no boolean. -/
theorem stringValue_bool_iff (s : GoString) :
    (stringValue s = Value.bool true ↔ s = "true".toList ∨ s = "True".toList) ∧
      (stringValue s = Value.bool false ↔ s = "false".toList ∨ s = "False".toList) ∧
      (∀ b, stringValue "TRUE".toList ≠ Value.bool b) ∧
      (∀ b, stringValue "flase".toList ≠ Value.bool b) := by
  have key : ∀ b, stringValue s = Value.bool b →
      (b = true ∧ (s = "true".toList ∨ s = "True".toList)) ∨
        (b = false ∧ (s = "false".toList ∨ s = "False".toList)) := by
    intro b hb
    unfold stringValue at hb
    cases hn : siNumber (stripI s) with
    | some x => rw [hn] at hb; cases hb
    | none =>
      rw [hn] at hb
      simp only at hb
      split_ifs at hb with h1 h2
      · cases hb; exact Or.inl ⟨rfl, h1⟩
      · cases hb; exact Or.inr ⟨rfl, h2⟩
      · cases hp : parseRFC3339 s with
        | some t => rw [hp] at hb; cases hb
        | none =>
          rw [hp] at hb
          cases hq : parseShortDate s with
          | some t => rw [hq] at hb; cases hb
          | none => rw [hq] at hb; cases hb
  refine ⟨⟨?_, ?_⟩, ⟨?_, ?_⟩, ?_, ?_⟩
  · intro h
    rcases key true h with ⟨_, hs⟩ | ⟨hb, _⟩
    · exact hs
    · cases hb
  · rintro (rfl | rfl) <;> rfl
  · intro h
    rcases key false h with ⟨hb, _⟩ | ⟨_, hs⟩
    · cases hb
    · exact hs
  · rintro (rfl | rfl) <;> rfl
  · intro b hb
    have h : stringValue "TRUE".toList = Value.str "TRUE".toList := by rfl
    rw [h] at hb
    cases hb
  · intro b hb
    have h : stringValue "flase".toList = Value.str "flase".toList := by rfl
    rw [h] at hb
    cases hb

/-! ## Path resolution -/

theorem Split_ne_nil (s : GoString) (sep : Char) : Split s sep ≠ [] := by
  cases s with
  | nil => simp [Split]
  | cons c cs =>
    simp only [Split]
    split
    · simp
    · split <;> simp

theorem Split_cons (c : Char) (cs : GoString) (sep : Char) :
    Split (c :: cs) sep =
      if c = sep then [] :: Split cs sep
      else
        match Split cs sep with
        | [] => [[c]]
        | seg :: rest => (c :: seg) :: rest := by
  rw [Split]

theorem Split_append (k1 k2 : GoString) (sep : Char) :
    Split (k1 ++ sep :: k2) sep = Split k1 sep ++ Split k2 sep := by
  induction k1 with
  | nil => simp [Split]
  | cons c cs ih =>
    rw [List.cons_append, Split_cons, Split_cons, ih]
    by_cases hc : c = sep
    · rw [if_pos hc, if_pos hc]
      rfl
    · rw [if_neg hc, if_neg hc]
      cases hs : Split cs sep with
      | nil => exact absurd hs (Split_ne_nil cs sep)
      | cons seg rest => rfl

theorem getNestedLoop_append (ks1 ks2 : List GoString) :
    ∀ node : Value, getNestedLoop node (ks1 ++ ks2) =
      match getNestedLoop node ks1 with
      | some (m, true) => getNestedLoop m ks2
      | r => r := by
  induction ks1 with
  | nil => intro node; rfl
  | cons key rest ih =>
    intro node
    simp only [List.cons_append, getNestedLoop]
    cases hidx : segmentIndex key with
    | some i =>
      cases node with
      | list xs =>
        simp only
        by_cases hle : i ≤ xs.length
        · simp only [if_pos hle]
          cases hget : xs[i - 1]? with
          | some next => exact ih next
          | none => rfl
        · simp only [if_neg hle]
      | _ => rfl
    | none =>
      cases node with
      | object fields =>
        simp only
        cases mapGet fields key with
        | some next => exact ih next
        | none => rfl
      | _ => rfl

theorem getNestedObject_append (root : Value) (k1 k2 : GoString) :
    getNestedObject root (k1 ++ '.' :: k2) =
      match getNestedObject root k1 with
      | some (m, true) => getNestedObject m k2
      | r => r := by
  unfold getNestedObject
  rw [Split_append, getNestedLoop_append]

/-- C13: the segment `0` is a field name and never a list index: on an Object
with a field named `0` it returns that field with found=true, on every List it
yields found=false, and `a.0.b` on `{a: [{b:1},{b:2}]}` yields found=false. -/
theorem getNestedObject_zero_segment (fields : List (GoString × Value)) (v : Value)
    (xs : List Value) :
    (mapGet fields "0".toList = some v →
        getNestedObject (.object fields) "0".toList = some (v, true)) ∧
      getNestedObject (.list xs) "0".toList = some (.list xs, false) ∧
      ∃ w, getNestedObject exampleRoot "a.0.b".toList = some (w, false) := by
  have hidx : segmentIndex ['0'] = none := by decide
  have hs : Split "0".toList '.' = [['0']] := by decide
  refine ⟨?_, ?_, ⟨_, by rfl⟩⟩
  · intro hv
    have hv' : mapGet fields ['0'] = some v := hv
    simp only [getNestedObject, hs, getNestedLoop, hidx, hv']
  · simp only [getNestedObject, hs, getNestedLoop, hidx]

/-- C13, witness: the field `0` of `{"0": "x"}`. -/
theorem getNestedObject_zero_segment_witness :
    getNestedObject (.object [("0".toList, .str "x".toList)]) "0".toList =
      some (.str "x".toList, true) :=
  (getNestedObject_zero_segment [("0".toList, .str "x".toList)] (.str "x".toList) []).1
    (by rfl)

/-- C14: for every record, whatever its generic structure holds, the key `name`
returns the record's name and `namespace` its namespace (the empty string
included), both as strings with found=true. -/
theorem extractValue_name_namespace (item : Record) (obj : List (GoString × Value)) :
    extractValue { item with Object := obj } "name".toList =
        some (Value.str item.GetName, true) ∧
      extractValue { item with Object := obj } "namespace".toList =
        some (Value.str item.GetNamespace, true) ∧
      extractValue
        { bareRecord "pod".toList [] with
          Object := [("name".toList, .str "other".toList), ("namespace".toList, .int 3)] }
        "name".toList = some (Value.str "pod".toList, true) ∧
      extractValue
        { bareRecord "pod".toList [] with
          Object := [("name".toList, .str "other".toList), ("namespace".toList, .int 3)] }
        "namespace".toList = some (Value.str [], true) :=
  ⟨by rfl, by rfl, by rfl, by rfl⟩

/-- C18: `getNestedObject(root, k1 + "." + k2)` has found=true with node `v`
exactly when `getNestedObject(root, k1)` has found=true with some node `m` and
`getNestedObject(m, k2)` has found=true with node `v`; and when the path `k1`
fails, the longer path fails as well. -/
theorem getNestedObject_compose (root : Value) (k1 k2 : GoString) :
    (∀ v, getNestedObject root (k1 ++ '.' :: k2) = some (v, true) ↔
        ∃ m, getNestedObject root k1 = some (m, true) ∧
          getNestedObject m k2 = some (v, true)) ∧
      (∀ m, getNestedObject root k1 = some (m, false) →
        getNestedObject root (k1 ++ '.' :: k2) = some (m, false)) := by
  rw [getNestedObject_append]
  obtain ⟨⟨m, ok⟩, hr⟩ := getNestedObject_isSome root k1
  rw [hr]
  cases ok with
  | true =>
    refine ⟨fun v => ⟨fun h => ⟨m, rfl, h⟩, ?_⟩, ?_⟩
    · rintro ⟨m', hm, hv⟩
      cases hm
      exact hv
    · intro m' hm
      cases hm
  | false =>
    refine ⟨fun v => ⟨fun h => ?_, ?_⟩, ?_⟩
    · cases h
    · rintro ⟨m', hm, _⟩
      cases hm
    · intro m' hm
      cases hm
      rfl

/-- C18, witness: on `{a: [{b:1},{b:2}]}` the path `a.2` followed by `b`. -/
theorem getNestedObject_compose_witness :
    getNestedObject exampleRoot ("a.2".toList ++ '.' :: "b".toList) = some (.int 2, true) :=
  ((getNestedObject_compose exampleRoot "a.2".toList "b".toList).1 (.int 2)).2
    ⟨.object [("b".toList, .int 2)], by rfl, by rfl⟩

/-- C20: `getNestedObject` returns for every node and key, so the element
access `objectList[i-1]` never fails: it is reached only with `1 ≤ i` and
`i ≤ len`, an index beyond the length ends the traversal with found=false, a
segment with leading zeros is the index it denotes and a segment too large for
64 bits is not an index at all. -/
theorem getNestedObject_total (node : Value) (key : GoString) :
    (∃ v ok, getNestedObject node key = some (v, ok)) ∧
      (∀ (xs : List Value) (seg : GoString) (rest : List GoString) (i : Nat),
        segmentIndex seg = some i → i ≤ xs.length →
          ∃ h : i - 1 < xs.length, 1 ≤ i ∧
            getNestedLoop (.list xs) (seg :: rest) = getNestedLoop (xs.get ⟨i - 1, h⟩) rest) ∧
      (∀ (xs : List Value) (seg : GoString) (rest : List GoString) (i : Nat),
        segmentIndex seg = some i → xs.length < i →
          getNestedLoop (.list xs) (seg :: rest) = some (.list xs, false)) ∧
      getNestedObject (.list [.int 7, .int 8]) "02".toList = some (.int 8, true) ∧
      getNestedObject (.list [.int 7, .int 8]) "3".toList =
        some (.list [.int 7, .int 8], false) ∧
      getNestedObject (.list [.int 7, .int 8]) "18446744073709551617".toList =
        some (.list [.int 7, .int 8], false) := by
  refine ⟨?_, ?_, ?_, by rfl, by rfl, by rfl⟩
  · obtain ⟨⟨v, ok⟩, hr⟩ := getNestedObject_isSome node key
    exact ⟨v, ok, hr⟩
  · intro xs seg rest i hidx hle
    have hpos : 0 < i := ((segmentIndex_eq_some seg i).1 hidx).2
    have h : i - 1 < xs.length := by omega
    refine ⟨h, hpos, ?_⟩
    have hget : xs[i - 1]? = some (xs.get ⟨i - 1, h⟩) := by
      rw [List.getElem?_eq_getElem h]
      rfl
    simp only [getNestedLoop, hidx, hle, if_true, hget]
  · intro xs seg rest i hidx hlt
    have hnot : ¬ i ≤ xs.length := by omega
    simp only [getNestedLoop, hidx, hnot, if_false]

/-- C20, witness: the segment `2` on a two-element list reaches the element at
position 1. -/
theorem getNestedObject_total_witness :
    ∃ h : 2 - 1 < [Value.int 7, Value.int 8].length, 1 ≤ 2 ∧
      getNestedLoop (.list [.int 7, .int 8]) ["2".toList, "x".toList] =
        getNestedLoop ([Value.int 7, Value.int 8].get ⟨2 - 1, h⟩) ["x".toList] :=
  (getNestedObject_total .null []).2.1 [.int 7, .int 8] "2".toList ["x".toList] 2
    (by decide) (by decide)

/-! ## Kinds of values -/

theorem stringValue_kind (s : GoString) :
    (∃ x, stringValue s = Value.float x) ∨ (∃ b, stringValue s = Value.bool b) ∨
      (∃ t, stringValue s = Value.time t) ∨ stringValue s = Value.str s := by
  unfold stringValue
  cases siNumber (stripI s) with
  | some x => exact Or.inl ⟨x, rfl⟩
  | none =>
    simp only
    split_ifs
    · exact Or.inr (Or.inl ⟨true, rfl⟩)
    · exact Or.inr (Or.inl ⟨false, rfl⟩)
    · cases parseRFC3339 s with
      | some t => exact Or.inr (Or.inr (Or.inl ⟨t, rfl⟩))
      | none =>
        cases parseShortDate s with
        | some t => exact Or.inr (Or.inr (Or.inl ⟨t, rfl⟩))
        | none => exact Or.inr (Or.inr (Or.inr rfl))

theorem stringValue_coerced (s : GoString) :
    isCoerced (stringValue s) = true ∧ stringValue s ≠ Value.null := by
  rcases stringValue_kind s with ⟨x, h⟩ | ⟨b, h⟩ | ⟨t, h⟩ | h <;> rw [h] <;>
    exact ⟨rfl, fun e => Value.noConfusion e⟩

theorem mapValue_coerced (m : List (GoString × GoString)) (X : GoString) :
    isCoerced (mapValue m X) = true := by
  unfold mapValue
  cases mapGet m X with
  | none => rfl
  | some v =>
    simp only
    split_ifs
    · rfl
    · exact (stringValue_coerced v).1

theorem mapValue_null_iff (m : List (GoString × GoString)) (X : GoString) :
    mapValue m X = Value.null ↔ mapGet m X = none := by
  unfold mapValue
  cases mapGet m X with
  | none => simp
  | some v =>
    simp only
    split_ifs
    · simp
    · simpa using (stringValue_coerced v).2

theorem extractValue_isCoerced (item : Record) (key : GoString) (v : Value) (found : Bool)
    (h : extractValue item key = some (v, found)) : isCoerced v = true := by
  unfold extractValue at h
  split_ifs at h
  · cases h; rfl
  · cases h; rfl
  · cases h; rfl
  · cases hd : item.GetDeletionTimestamp with
    | none => rw [hd] at h; cases h
    | some t => rw [hd] at h; cases h; rfl
  · cases h; exact mapValue_coerced _ _
  · cases h; exact mapValue_coerced _ _
  · obtain ⟨⟨node, ok⟩, hr⟩ := getNestedObject_isSome (.object item.Object) key
    rw [hr] at h
    cases ok with
    | false => cases h; rfl
    | true =>
      cases node with
      | float x => cases h; rfl
      | int i => cases h; rfl
      | str s => cases h; exact (stringValue_coerced s).1
      | _ => cases h; rfl

/-- C15: for every record and key, a value returned by `extractValue` is null,
a boolean, a float number, a string or a timestamp, never an integer; and
`extractValue` returns such a value for every key except `deleted` on a record
without deletion timestamp. -/
theorem extractValue_coerced (item : Record) (key : GoString) :
    (∀ v found, extractValue item key = some (v, found) → isCoerced v = true) ∧
      (∀ i found, extractValue item key ≠ some (Value.int i, found)) ∧
      (¬ (key = "deleted".toList ∧ item.GetDeletionTimestamp = none) →
        ∃ v, extractValue item key = some (v, true) ∧ isCoerced v = true) := by
  refine ⟨extractValue_isCoerced item key, ?_, ?_⟩
  · intro i found h
    have := extractValue_isCoerced item key _ _ h
    cases this
  · intro hnot
    rcases extractValue_returns item key with ⟨h1, h2, _⟩ | ⟨v, hv⟩
    · exact absurd ⟨h1, h2⟩ hnot
    · exact ⟨v, hv, extractValue_isCoerced item key _ _ hv⟩

/-- C15, witness: the integer field `replicas: 3` comes back as a coerced value. -/
theorem extractValue_coerced_witness :
    ∃ v, extractValue
        { bareRecord "pod".toList "ns".toList with Object := [("replicas".toList, .int 3)] }
        "replicas".toList = some (v, true) ∧ isCoerced v = true :=
  (extractValue_coerced _ "replicas".toList).2.2 (by decide)

/-- C19: `stringValue` never returns null, so for every record and non-empty
name `X` the key `labels.X` is null exactly when `X` is absent from the label
map, and `annotations.X` exactly when `X` is absent from the annotation map. -/
theorem stringValue_never_null (item : Record) (X : GoString) (hX : X ≠ []) :
    (∀ s, stringValue s ≠ Value.null) ∧
      (extractValue item ("labels.".toList ++ X) = some (Value.null, true) ↔
        mapGet item.GetLabels X = none) ∧
      (extractValue item ("annotations.".toList ++ X) = some (Value.null, true) ↔
        mapGet item.GetAnnotations X = none) := by
  refine ⟨fun s => (stringValue_coerced s).2, ?_, ?_⟩
  · rw [extractValue_labels item X hX, ← mapValue_null_iff]
    simp
  · rw [extractValue_annotations item X hX, ← mapValue_null_iff]
    simp

/-- C19, witness: with labels `{"tier": "gold"}` the key `labels.zone` is null
because `zone` is absent. -/
theorem stringValue_never_null_witness :
    extractValue
        { bareRecord "pod".toList "ns".toList with
          GetLabels := [("tier".toList, "gold".toList)] }
        ("labels.".toList ++ "zone".toList) = some (Value.null, true) :=
  ((stringValue_never_null _ "zone".toList (by decide)).2.1).2 (by rfl)

/-- C17 (amended): a key `labels.X` with a non-empty `X` is answered from the
label map alone, whatever the generic structure holds, and likewise
`annotations.X`; the keys `labels.` and `annotations.` themselves are not
intercepted and are resolved as paths in the generic structure. -/
theorem extractValue_labels_nonempty (item : Record) (obj : List (GoString × Value))
    (X : GoString) (hX : X ≠ []) :
    extractValue { item with Object := obj } ("labels.".toList ++ X) =
        some (mapValue item.GetLabels X, true) ∧
      extractValue { item with Object := obj } ("annotations.".toList ++ X) =
        some (mapValue item.GetAnnotations X, true) ∧
      extractValue
        { item with Object := [("labels".toList, .object [([], .float 3)])] }
        "labels.".toList = some (Value.float 3, true) ∧
      extractValue
        { item with Object := [("annotations".toList, .object [([], .float 3)])] }
        "annotations.".toList = some (Value.float 3, true) :=
  ⟨extractValue_labels _ X hX, extractValue_annotations _ X hX, by rfl, by rfl⟩

/-- C17, witness: `labels.tier` ignores a field `labels` of the generic
structure. -/
theorem extractValue_labels_nonempty_witness :
    extractValue
        { bareRecord "pod".toList "ns".toList with
          Object := [("labels".toList, .object [("tier".toList, .float 3)])] }
        ("labels.".toList ++ "tier".toList) =
      some (mapValue (bareRecord "pod".toList "ns".toList).GetLabels "tier".toList, true) :=
  (extractValue_labels_nonempty (bareRecord "pod".toList "ns".toList)
    [("labels".toList, .object [("tier".toList, .float 3)])] "tier".toList (by decide)).1

/-- C17 as stated fails on the key `labels.`: with the label `""` present
(empty value) the label policy gives `true`, yet `extractValue` returns null;
and with a field `labels` in the generic structure it returns that field's
content. -/
theorem extractValue_labels_bare_key :
    mapValue [([], [])] [] = Value.bool true ∧
      extractValue { bareRecord "pod".toList "ns".toList with GetLabels := [([], [])] }
        "labels.".toList = some (Value.null, true) ∧
      extractValue
        { bareRecord "pod".toList "ns".toList with
          GetLabels := [([], [])],
          Object := [("labels".toList, .object [([], .float 3)])] }
        "labels.".toList = some (Value.float 3, true) ∧
      extractValue { bareRecord "pod".toList "ns".toList with GetLabels := [([], [])] }
        "labels.".toList ≠ some (mapValue [([], [])] [], true) := by
  have h : extractValue { bareRecord "pod".toList "ns".toList with GetLabels := [([], [])] }
      "labels.".toList = some (Value.null, true) := by rfl
  refine ⟨by rfl, h, by rfl, ?_⟩
  rw [h]
  intro e
  cases e

/-! ## Dates -/

theorem isDigit_digitChar (n : Nat) : isDigit (Nat.digitChar (n % 10)) = true :=
  (digitChar_isDigit (n % 10) (Nat.mod_lt _ (by norm_num))).1

theorem digitVal_digitChar (n : Nat) : digitVal (Nat.digitChar (n % 10)) = n % 10 :=
  (digitChar_isDigit (n % 10) (Nat.mod_lt _ (by norm_num))).2

theorem digitsValue_none_of_not_digit (s : GoString) (c : Char) (hc : isDigit c = false)
    (hmem : c ∈ s) : ∀ acc, digitsValue s acc = none := by
  induction s with
  | nil => simp at hmem
  | cons d ds ih =>
    intro acc
    simp only [digitsValue]
    rcases List.mem_cons.mp hmem with rfl | h
    · simp [hc]
    · split
      · exact ih h _
      · rfl

theorem ParseInt_none_of_hyphen (c : Char) (cs : GoString) (hc : isDigit c = true)
    (hmem : '-' ∈ cs) : ParseInt (c :: cs) = none := by
  obtain ⟨h1, h2, _⟩ := isDigit_ne_sign c hc
  have hv : digitsValue (c :: cs) 0 = none :=
    digitsValue_none_of_not_digit _ '-' (by decide) (List.mem_cons_of_mem _ hmem) 0
  simp only [ParseInt, h1, h2, or_self, if_false, parseMagnitude, hv]

theorem siMultiplier_digit (c : Char) (hc : isDigit c = true) : siMultiplier [c] = 0 := by
  have h : c ≠ 'K' ∧ c ≠ 'M' ∧ c ≠ 'G' ∧ c ≠ 'T' ∧ c ≠ 'P' := by
    refine ⟨?_, ?_, ?_, ?_, ?_⟩ <;> (rintro rfl; revert hc; decide)
  simp [siMultiplier, h.1, h.2.1, h.2.2.1, h.2.2.2.1, h.2.2.2.2]

theorem isDigit_ne_i (c : Char) (hc : isDigit c = true) : c ≠ 'i' := by
  rintro rfl; revert hc; decide

/-- A string that starts with a digit, holds a hyphen and does not end in `i`
is not turned into a number. -/
theorem siNumber_stripI_none (c d : Char) (body : GoString) (hc : isDigit c = true)
    (hd : d ≠ 'i') (hmem : '-' ∈ body) :
    siNumber (stripI (c :: (body ++ [d]))) = none := by
  have e : c :: (body ++ [d]) = (c :: body) ++ [d] := rfl
  rw [e, stripI_suffix _ d hd]
  unfold siNumber
  simp only [drop_last_append, take_last_append]
  have hp : ParseInt (c :: (body ++ [d])) = none :=
    ParseInt_none_of_hyphen c (body ++ [d]) hc (List.mem_append_left _ hmem)
  have hq : ParseInt (c :: body) = none := ParseInt_none_of_hyphen c body hc hmem
  split_ifs <;> simp [hp, hq]

theorem ne_bool_literal (c : Char) (rest : GoString) (hc : isDigit c = true) :
    ¬ (c :: rest = "true".toList ∨ c :: rest = "True".toList) ∧
      ¬ (c :: rest = "false".toList ∨ c :: rest = "False".toList) := by
  have h : c ≠ 't' ∧ c ≠ 'T' ∧ c ≠ 'f' ∧ c ≠ 'F' := by
    refine ⟨?_, ?_, ?_, ?_⟩ <;> (rintro rfl; revert hc; decide)
  have e1 : "true".toList = ['t', 'r', 'u', 'e'] := rfl
  have e2 : "True".toList = ['T', 'r', 'u', 'e'] := rfl
  have e3 : "false".toList = ['f', 'a', 'l', 's', 'e'] := rfl
  have e4 : "False".toList = ['F', 'a', 'l', 's', 'e'] := rfl
  rw [e1, e2, e3, e4]
  simp [h.1, h.2.1, h.2.2.1, h.2.2.2]

theorem getnum_two (c0 c1 : Char) (rest : GoString) ( fixed : Bool) (h0 : isDigit c0 = true)
    (h1 : isDigit c1 = true) :
    getnum (c0 :: c1 :: rest) fixed = some (digitVal c0 * 10 + digitVal c1, rest) := by
  simp [getnum, h0, h1]

theorem getnum_not_digit (c : Char) (rest : GoString) ( fixed : Bool)
    (h : isDigit c = false) : getnum (c :: rest) fixed = none := by
  cases rest <;> simp [getnum, h]

theorem numField_two (c0 c1 : Char) (rest : GoString) ( fixed : Bool) (lo hi : Nat)
    (h0 : isDigit c0 = true) (h1 : isDigit c1 = true) :
    numField (c0 :: c1 :: rest) fixed lo hi =
      if digitVal c0 * 10 + digitVal c1 < lo ∨ hi < digitVal c0 * 10 + digitVal c1 then none
      else some (digitVal c0 * 10 + digitVal c1, rest) := by
  simp only [numField, getnum_two c0 c1 rest fixed h0 h1]

theorem numField_not_digit (c : Char) (rest : GoString) ( fixed : Bool) (lo hi : Nat)
    (h : isDigit c = false) : numField (c :: rest) fixed lo hi = none := by
  simp only [numField, getnum_not_digit c rest fixed h]

theorem skip_same (c : Char) (rest : GoString) : skip (c :: rest) c = some rest := by
  simp [skip]

/-- The date fields of a value that starts like `YYYY-MM-DD`: the year read by
`atoi`, the month once it is in `1..12`, the day, and what follows. -/
theorem dateFields_form (y1 y2 y3 y4 m1 m2 d1 d2 : Char) (tail : GoString)
    (hy1 : isDigit y1 = true) (hm1 : isDigit m1 = true) (hm2 : isDigit m2 = true)
    (hd1 : isDigit d1 = true) (hd2 : isDigit d2 = true) :
    dateFields (y1 :: y2 :: y3 :: y4 :: '-' :: m1 :: m2 :: '-' :: d1 :: d2 :: tail) =
      match atoi [y1, y2, y3, y4] with
      | none => none
      | some year =>
        if digitVal m1 * 10 + digitVal m2 < 1 ∨ 12 < digitVal m1 * 10 + digitVal m2 then none
        else some (year, digitVal m1 * 10 + digitVal m2, digitVal d1 * 10 + digitVal d2, tail) := by
  have hlen : ¬ ((y1 :: y2 :: y3 :: y4 :: '-' :: m1 :: m2 :: '-' :: d1 :: d2 :: tail).length < 4 ∨
      (!isDigit ((y1 :: y2 :: y3 :: y4 :: '-' :: m1 :: m2 :: '-' :: d1 :: d2 :: tail).headD ' ')) =
        true) := by
    simp [hy1]
  unfold dateFields
  rw [if_neg hlen]
  simp only [List.take, List.drop, skip_same, Option.bind_eq_bind, Option.some_bind]
  cases atoi [y1, y2, y3, y4] with
  | none => rfl
  | some year =>
    simp only [Option.some_bind, numField_two m1 m2 _ true 1 12 hm1 hm2]
    by_cases hb : digitVal m1 * 10 + digitVal m2 < 1 ∨ 12 < digitVal m1 * 10 + digitVal m2
    · simp only [if_pos hb, Option.none_bind]
    · simp only [if_neg hb, Option.some_bind, skip_same, getnum_two d1 d2 tail true hd1 hd2]
      rfl

theorem parseRFC3339_shortForm (y1 y2 y3 y4 m1 m2 d1 d2 : Char)
    (hy1 : isDigit y1 = true) (hm1 : isDigit m1 = true) (hm2 : isDigit m2 = true)
    (hd1 : isDigit d1 = true) (hd2 : isDigit d2 = true) :
    parseRFC3339 [y1, y2, y3, y4, '-', m1, m2, '-', d1, d2] = none := by
  unfold parseRFC3339
  rw [dateFields_form y1 y2 y3 y4 m1 m2 d1 d2 [] hy1 hm1 hm2 hd1 hd2]
  cases atoi [y1, y2, y3, y4] with
  | none => rfl
  | some year =>
    by_cases hb : digitVal m1 * 10 + digitVal m2 < 1 ∨ 12 < digitVal m1 * 10 + digitVal m2
    · simp only [if_pos hb]; rfl
    · simp only [if_neg hb]; rfl

theorem parseShortDate_shortForm (y1 y2 y3 y4 : Char) (rest : GoString)
    (hy1 : isDigit y1 = true) (hy2 : isDigit y2 = true)
    (hy3 : isDigit y3 = true) (hy4 : isDigit y4 = true) :
    parseShortDate (y1 :: y2 :: y3 :: y4 :: '-' :: rest) = none := by
  have hh : isDigit '-' = false := by decide
  have hs : shortHead (y1 :: y2 :: y3 :: y4 :: '-' :: rest) = none := by
    unfold shortHead
    simp only [Option.bind_eq_bind, Option.some_bind, getnum_two y1 y2 _ false hy1 hy2,
      numField_two y3 y4 _ true 1 12 hy3 hy4]
    by_cases hb : digitVal y3 * 10 + digitVal y4 < 1 ∨ 12 < digitVal y3 * 10 + digitVal y4
    · simp only [if_pos hb, Option.none_bind]
    · simp only [if_neg hb, Option.some_bind, numField_not_digit '-' rest false 0 59 hh,
        Option.none_bind]
  unfold parseShortDate
  rw [hs]
  rfl

/-- C11: no string of the short date form is turned into a timestamp:
`stringValue` returns every `YYYY-MM-DD` string unchanged as a string, and so
`2014-06-23` as well. -/
theorem stringValue_shortDate_string (year month day : Nat) :
    stringValue (shortDate year month day) = Value.str (shortDate year month day) ∧
      shortDate 2014 6 23 = "2014-06-23".toList ∧
      stringValue "2014-06-23".toList = Value.str "2014-06-23".toList ∧
      ∀ t, stringValue "2014-06-23".toList ≠ Value.time t := by
  have hgen : ∀ y m d, stringValue (shortDate y m d) = Value.str (shortDate y m d) := by
    intro y m d
    have e : shortDate y m d =
        [Nat.digitChar (y / 1000 % 10), Nat.digitChar (y / 100 % 10),
          Nat.digitChar (y / 10 % 10), Nat.digitChar (y % 10), '-',
          Nat.digitChar (m / 10 % 10), Nat.digitChar (m % 10), '-',
          Nat.digitChar (d / 10 % 10), Nat.digitChar (d % 10)] := rfl
    rw [e]
    have hsi := siNumber_stripI_none (Nat.digitChar (y / 1000 % 10)) (Nat.digitChar (d % 10))
      [Nat.digitChar (y / 100 % 10), Nat.digitChar (y / 10 % 10), Nat.digitChar (y % 10), '-',
        Nat.digitChar (m / 10 % 10), Nat.digitChar (m % 10), '-', Nat.digitChar (d / 10 % 10)]
      (isDigit_digitChar _) (isDigit_ne_i _ (isDigit_digitChar _)) (by simp)
    have hb := ne_bool_literal (Nat.digitChar (y / 1000 % 10))
      [Nat.digitChar (y / 100 % 10), Nat.digitChar (y / 10 % 10), Nat.digitChar (y % 10), '-',
        Nat.digitChar (m / 10 % 10), Nat.digitChar (m % 10), '-', Nat.digitChar (d / 10 % 10),
        Nat.digitChar (d % 10)] (isDigit_digitChar _)
    have hr := parseRFC3339_shortForm (Nat.digitChar (y / 1000 % 10))
      (Nat.digitChar (y / 100 % 10)) (Nat.digitChar (y / 10 % 10)) (Nat.digitChar (y % 10))
      (Nat.digitChar (m / 10 % 10)) (Nat.digitChar (m % 10)) (Nat.digitChar (d / 10 % 10))
      (Nat.digitChar (d % 10)) (isDigit_digitChar _) (isDigit_digitChar _) (isDigit_digitChar _)
      (isDigit_digitChar _) (isDigit_digitChar _)
    have hp := parseShortDate_shortForm (Nat.digitChar (y / 1000 % 10))
      (Nat.digitChar (y / 100 % 10)) (Nat.digitChar (y / 10 % 10)) (Nat.digitChar (y % 10))
      [Nat.digitChar (m / 10 % 10), Nat.digitChar (m % 10), '-', Nat.digitChar (d / 10 % 10),
        Nat.digitChar (d % 10)] (isDigit_digitChar _) (isDigit_digitChar _) (isDigit_digitChar _)
      (isDigit_digitChar _)
    unfold stringValue
    have hsi' : siNumber (stripI [Nat.digitChar (y / 1000 % 10), Nat.digitChar (y / 100 % 10),
          Nat.digitChar (y / 10 % 10), Nat.digitChar (y % 10), '-',
          Nat.digitChar (m / 10 % 10), Nat.digitChar (m % 10), '-',
          Nat.digitChar (d / 10 % 10), Nat.digitChar (d % 10)]) = none := hsi
    rw [hsi']
    simp only [if_neg hb.1, if_neg hb.2, hr, hp]
  have h14 : stringValue "2014-06-23".toList = Value.str "2014-06-23".toList := by rfl
  refine ⟨hgen year month day, by rfl, h14, ?_⟩
  intro t ht
  rw [h14] at ht
  cases ht

/-- C12: a string value returned by `stringValue` is the input unchanged, and
`flase` and `not-a-date` come back unchanged; but `42`, which has no SI
suffix, is no boolean literal and is no date, comes back as the number 0. -/
theorem stringValue_string_unchanged :
    (∀ s t, stringValue s = Value.str t → t = s) ∧
      stringValue "flase".toList = Value.str "flase".toList ∧
      stringValue "not-a-date".toList = Value.str "not-a-date".toList ∧
      (hasSISuffix "42".toList = false ∧ isBoolLiteral "42".toList = false ∧
        parseRFC3339 "42".toList = none ∧ parseShortDate "42".toList = none) ∧
      stringValue "42".toList = Value.float 0 ∧
      stringValue "42".toList ≠ Value.str "42".toList := by
  have h42 : stringValue "42".toList = Value.float 0 := by rfl
  refine ⟨?_, by rfl, by rfl, ⟨by decide, by decide, by decide, by decide⟩, h42, ?_⟩
  · intro s t h
    rcases stringValue_kind s with ⟨x, hx⟩ | ⟨b, hb⟩ | ⟨u, hu⟩ | hs
    · rw [hx] at h; cases h
    · rw [hb] at h; cases h
    · rw [hu] at h; cases h
    · rw [hs] at h
      cases h
      rfl
  · rw [h42]
    intro e
    cases e

/-- C12, witness: the string returned for `flase` is `flase`. -/
theorem stringValue_string_unchanged_witness :
    "flase".toList = "flase".toList :=
  stringValue_string_unchanged.1 "flase".toList "flase".toList (by rfl)

/-! ## RFC 3339 -/

theorem pad2_value (n : Nat) (h : n < 100) :
    digitVal (Nat.digitChar (n / 10 % 10)) * 10 + digitVal (Nat.digitChar (n % 10)) = n := by
  rw [digitVal_digitChar, digitVal_digitChar]
  omega

theorem atoi_pad4 (y : Nat) (h : y < 10000) : atoi (pad4 y) = some (y : Int) := by
  have hd := isDigit_ne_sign _ (isDigit_digitChar (y / 1000))
  have hv : digitsValue (pad4 y) 0 = some y := by
    simp only [pad4, digitsValue, isDigit_digitChar, if_true, digitVal_digitChar]
    congr 1
    omega
  have e : pad4 y = Nat.digitChar (y / 1000 % 10) ::
      [Nat.digitChar (y / 100 % 10), Nat.digitChar (y / 10 % 10), Nat.digitChar (y % 10)] := rfl
  rw [e] at hv ⊢
  simp only [atoi, hd.1, hd.2.1, or_self, if_false, hv]

/-- The clock fields of a value that starts like `hh:mm:ss`. -/
theorem clockFields_form (h1 h2 m1 m2 s1 s2 : Char) (tail : GoString)
    (hh1 : isDigit h1 = true) (hh2 : isDigit h2 = true) (hm1 : isDigit m1 = true)
    (hm2 : isDigit m2 = true) (hs1 : isDigit s1 = true) (hs2 : isDigit s2 = true)
    (hH : digitVal h1 * 10 + digitVal h2 < 24) (hM : digitVal m1 * 10 + digitVal m2 < 60)
    (hS : digitVal s1 * 10 + digitVal s2 < 60) :
    clockFields (h1 :: h2 :: ':' :: m1 :: m2 :: ':' :: s1 :: s2 :: tail) =
      some (digitVal h1 * 10 + digitVal h2, digitVal m1 * 10 + digitVal m2,
        digitVal s1 * 10 + digitVal s2, (fractionalSecond tail).1, (fractionalSecond tail).2) := by
  have bH : ¬ (digitVal h1 * 10 + digitVal h2 < 0 ∨ 23 < digitVal h1 * 10 + digitVal h2) := by
    omega
  have bM : ¬ (digitVal m1 * 10 + digitVal m2 < 0 ∨ 59 < digitVal m1 * 10 + digitVal m2) := by
    omega
  have bS : ¬ (digitVal s1 * 10 + digitVal s2 < 0 ∨ 59 < digitVal s1 * 10 + digitVal s2) := by
    omega
  unfold clockFields
  simp only [Option.bind_eq_bind, Option.some_bind, numField_two h1 h2 _ false 0 23 hh1 hh2,
    numField_two m1 m2 _ true 0 59 hm1 hm2, numField_two s1 s2 _ true 0 59 hs1 hs2, if_neg bH,
    if_neg bM, if_neg bS, skip_same]
  rfl

theorem takeWhile_digits_append (l r : GoString) (hl : ∀ c ∈ l, isDigit c = true)
    (hr : ∀ c, r.head? = some c → isDigit c = false) :
    (l ++ r).takeWhile isDigit = l ∧ (l ++ r).dropWhile isDigit = r := by
  induction l with
  | nil =>
    cases r with
    | nil => simp
    | cons c cs =>
      have := hr c rfl
      simp [List.takeWhile, List.dropWhile, this]
  | cons d ds ih =>
    have hd : isDigit d = true := hl d (List.mem_cons_self _ _)
    obtain ⟨h1, h2⟩ := ih (fun c hc => hl c (List.mem_cons_of_mem _ hc))
    simp [List.takeWhile, List.dropWhile, hd, h1, h2]

theorem zone_head (z : Zone) : ∀ c, z.render.head? = some c →
    isDigit c = false ∧ c ≠ '.' ∧ c ≠ ',' := by
  intro c hc
  cases z <;> simp [Zone.render] at hc <;> subst hc <;> decide

theorem fractionalSecond_fraction (digits : GoString) (z : Zone)
    (hdig : ∀ c ∈ digits, isDigit c = true) :
    fractionalSecond (fraction digits ++ z.render) = (nanoseconds digits, z.render) := by
  cases digits with
  | nil =>
    have hn : nanoseconds [] = 0 := by decide
    rw [hn]
    cases z with
    | utc => rfl
    | east hh mm => simp [fraction, Zone.render, pad2, fractionalSecond]
    | west hh mm => simp [fraction, Zone.render, pad2, fractionalSecond]
  | cons c cs =>
    have hc : isDigit c = true := hdig c (List.mem_cons_self _ _)
    obtain ⟨h1, h2⟩ := takeWhile_digits_append (c :: cs) z.render hdig
      (fun d hd => (zone_head z d hd).1)
    have e : fraction (c :: cs) ++ z.render = '.' :: c :: (cs ++ z.render) := rfl
    rw [e]
    simp only [fractionalSecond, true_or, hc, and_self, if_true, List.drop]
    have e2 : c :: (cs ++ z.render) = (c :: cs) ++ z.render := rfl
    rw [e2, h1, h2]
    rfl

theorem zoneOffset_render (z : Zone) (hz : z.valid) : zoneOffset z.render = some (z.offset, []) := by
  cases z with
  | utc => rfl
  | east hh mm =>
    obtain ⟨h1, h2⟩ := hz
    have g1 := getnum_two (Nat.digitChar (hh / 10 % 10)) (Nat.digitChar (hh % 10)) [] true
      (isDigit_digitChar _) (isDigit_digitChar _)
    have g2 := getnum_two (Nat.digitChar (mm / 10 % 10)) (Nat.digitChar (mm % 10)) [] true
      (isDigit_digitChar _) (isDigit_digitChar _)
    rw [pad2_value hh (by omega)] at g1
    rw [pad2_value mm (by omega)] at g2
    have hb : ¬ (hh > 24 ∨ mm > 60) := by omega
    simp [Zone.render, pad2, zoneOffset, g1, g2, hb, Zone.offset]
  | west hh mm =>
    obtain ⟨h1, h2⟩ := hz
    have g1 := getnum_two (Nat.digitChar (hh / 10 % 10)) (Nat.digitChar (hh % 10)) [] true
      (isDigit_digitChar _) (isDigit_digitChar _)
    have g2 := getnum_two (Nat.digitChar (mm / 10 % 10)) (Nat.digitChar (mm % 10)) [] true
      (isDigit_digitChar _) (isDigit_digitChar _)
    rw [pad2_value hh (by omega)] at g1
    rw [pad2_value mm (by omega)] at g2
    have hb : ¬ (hh > 24 ∨ mm > 60) := by omega
    simp [Zone.render, pad2, zoneOffset, g1, g2, hb, Zone.offset]

theorem rfc3339_cons (year month day hour min sec : Nat) (digits : GoString) (zone : Zone) :
    rfc3339 year month day hour min sec digits zone =
      Nat.digitChar (year / 1000 % 10) :: Nat.digitChar (year / 100 % 10) ::
        Nat.digitChar (year / 10 % 10) :: Nat.digitChar (year % 10) :: '-' ::
        Nat.digitChar (month / 10 % 10) :: Nat.digitChar (month % 10) :: '-' ::
        Nat.digitChar (day / 10 % 10) :: Nat.digitChar (day % 10) :: 'T' ::
        Nat.digitChar (hour / 10 % 10) :: Nat.digitChar (hour % 10) :: ':' ::
        Nat.digitChar (min / 10 % 10) :: Nat.digitChar (min % 10) :: ':' ::
        Nat.digitChar (sec / 10 % 10) :: Nat.digitChar (sec % 10) ::
        (fraction digits ++ zone.render) := rfl

theorem daysIn_le (month : Nat) (year : Int) : daysIn month year ≤ 31 := by
  unfold daysIn
  split_ifs <;> omega

theorem parseRFC3339_render (year month day hour min sec : Nat) (digits : GoString)
    (zone : Zone) (hy : year < 10000) (hmo : 1 ≤ month ∧ month ≤ 12)
    (hd : 1 ≤ day ∧ day ≤ daysIn month year) (hh : hour < 24) (hmi : min < 60)
    (hs : sec < 60) (hdig : ∀ c ∈ digits, isDigit c = true) (hz : zone.valid) :
    parseRFC3339 (rfc3339 year month day hour min sec digits zone) =
      some ⟨year, month, day, hour, min, sec, nanoseconds digits, zone.offset⟩ := by
  have hday : day < 100 := by have := daysIn_le month year; omega
  have vmo := pad2_value month (by omega)
  have vd := pad2_value day hday
  have vh := pad2_value hour (by omega)
  have vmi := pad2_value min (by omega)
  have vs := pad2_value sec (by omega)
  have hyear : atoi [Nat.digitChar (year / 1000 % 10), Nat.digitChar (year / 100 % 10),
      Nat.digitChar (year / 10 % 10), Nat.digitChar (year % 10)] = some (year : Int) :=
    atoi_pad4 year hy
  have hdate := dateFields_form (Nat.digitChar (year / 1000 % 10))
    (Nat.digitChar (year / 100 % 10)) (Nat.digitChar (year / 10 % 10))
    (Nat.digitChar (year % 10)) (Nat.digitChar (month / 10 % 10)) (Nat.digitChar (month % 10))
    (Nat.digitChar (day / 10 % 10)) (Nat.digitChar (day % 10))
    ('T' :: Nat.digitChar (hour / 10 % 10) :: Nat.digitChar (hour % 10) :: ':' ::
      Nat.digitChar (min / 10 % 10) :: Nat.digitChar (min % 10) :: ':' ::
      Nat.digitChar (sec / 10 % 10) :: Nat.digitChar (sec % 10) ::
      (fraction digits ++ zone.render))
    (isDigit_digitChar _) (isDigit_digitChar _) (isDigit_digitChar _) (isDigit_digitChar _)
    (isDigit_digitChar _)
  have hclock := clockFields_form (Nat.digitChar (hour / 10 % 10)) (Nat.digitChar (hour % 10))
    (Nat.digitChar (min / 10 % 10)) (Nat.digitChar (min % 10))
    (Nat.digitChar (sec / 10 % 10)) (Nat.digitChar (sec % 10))
    (fraction digits ++ zone.render)
    (isDigit_digitChar _) (isDigit_digitChar _) (isDigit_digitChar _) (isDigit_digitChar _)
    (isDigit_digitChar _) (isDigit_digitChar _) (by rw [vh]; exact hh) (by rw [vmi]; exact hmi)
    (by rw [vs]; exact hs)
  rw [vh, vmi, vs, fractionalSecond_fraction digits zone hdig] at hclock
  have bmo : ¬ (month < 1 ∨ 12 < month) := by omega
  rw [hyear, vmo, vd] at hdate
  simp only [if_neg bmo] at hdate
  have bd : ¬ (day < 1 ∨ day > daysIn month year) := by omega
  rw [rfc3339_cons]
  unfold parseRFC3339
  simp only [hdate, Option.bind_eq_bind, Option.some_bind, skip_same, hclock,
    zoneOffset_render zone hz, ne_eq, not_true_eq_false, if_false, if_neg bd]
  rfl

/-- C16 (amended): for every RFC 3339 string written with an upper-case `T`
and zone designator and with seconds below 60, `stringValue` returns the
timestamp with the date, the time of day and the zone offset written in the
string, its fraction of a second cut to nanoseconds. -/
theorem stringValue_rfc3339 (year month day hour min sec : Nat) (digits : GoString)
    (zone : Zone) (hy : year < 10000) (hmo : 1 ≤ month ∧ month ≤ 12)
    (hd : 1 ≤ day ∧ day ≤ daysIn month year) (hh : hour < 24) (hmi : min < 60)
    (hs : sec < 60) (hdig : ∀ c ∈ digits, isDigit c = true) (hz : zone.valid) :
    stringValue (rfc3339 year month day hour min sec digits zone) =
      Value.time ⟨year, month, day, hour, min, sec, nanoseconds digits, zone.offset⟩ := by
  have hp := parseRFC3339_render year month day hour min sec digits zone hy hmo hd hh hmi hs
    hdig hz
  obtain ⟨zb, zl, hzr, hzl⟩ : ∃ zb zl, zone.render = zb ++ [zl] ∧ zl ≠ 'i' := by
    cases zone with
    | utc => exact ⟨[], 'Z', rfl, by decide⟩
    | east a b =>
      exact ⟨'+' :: Nat.digitChar (a / 10 % 10) :: Nat.digitChar (a % 10) :: ':' ::
        [Nat.digitChar (b / 10 % 10)], Nat.digitChar (b % 10), rfl,
        isDigit_ne_i _ (isDigit_digitChar _)⟩
    | west a b =>
      exact ⟨'-' :: Nat.digitChar (a / 10 % 10) :: Nat.digitChar (a % 10) :: ':' ::
        [Nat.digitChar (b / 10 % 10)], Nat.digitChar (b % 10), rfl,
        isDigit_ne_i _ (isDigit_digitChar _)⟩
  have hsi : siNumber (stripI (rfc3339 year month day hour min sec digits zone)) = none := by
    have e : rfc3339 year month day hour min sec digits zone =
        Nat.digitChar (year / 1000 % 10) ::
          ((Nat.digitChar (year / 100 % 10) :: Nat.digitChar (year / 10 % 10) ::
            Nat.digitChar (year % 10) :: '-' ::
            Nat.digitChar (month / 10 % 10) :: Nat.digitChar (month % 10) :: '-' ::
            Nat.digitChar (day / 10 % 10) :: Nat.digitChar (day % 10) :: 'T' ::
            Nat.digitChar (hour / 10 % 10) :: Nat.digitChar (hour % 10) :: ':' ::
            Nat.digitChar (min / 10 % 10) :: Nat.digitChar (min % 10) :: ':' ::
            Nat.digitChar (sec / 10 % 10) :: Nat.digitChar (sec % 10) ::
            (fraction digits ++ zb)) ++ [zl]) := by
      rw [rfc3339_cons, hzr]
      simp
    rw [e]
    exact siNumber_stripI_none _ zl _ (isDigit_digitChar _) hzl (by simp)
  have hb := ne_bool_literal (Nat.digitChar (year / 1000 % 10))
    (Nat.digitChar (year / 100 % 10) :: Nat.digitChar (year / 10 % 10) ::
      Nat.digitChar (year % 10) :: '-' ::
      Nat.digitChar (month / 10 % 10) :: Nat.digitChar (month % 10) :: '-' ::
      Nat.digitChar (day / 10 % 10) :: Nat.digitChar (day % 10) :: 'T' ::
      Nat.digitChar (hour / 10 % 10) :: Nat.digitChar (hour % 10) :: ':' ::
      Nat.digitChar (min / 10 % 10) :: Nat.digitChar (min % 10) :: ':' ::
      Nat.digitChar (sec / 10 % 10) :: Nat.digitChar (sec % 10) ::
      (fraction digits ++ zone.render)) (isDigit_digitChar _)
  rw [← rfc3339_cons] at hb
  unfold stringValue
  rw [hsi]
  simp only [if_neg hb.1, if_neg hb.2, hp]

/-- C16, witness: `2021-05-01T00:00:00Z` is midnight UTC of May 1, 2021. -/
theorem stringValue_rfc3339_witness :
    rfc3339 2021 5 1 0 0 0 [] Zone.utc = "2021-05-01T00:00:00Z".toList ∧
      stringValue (rfc3339 2021 5 1 0 0 0 [] Zone.utc) =
        Value.time ⟨2021, 5, 1, 0, 0, 0, nanoseconds [], Zone.utc.offset⟩ :=
  ⟨by rfl, stringValue_rfc3339 2021 5 1 0 0 0 [] Zone.utc (by decide) (by decide) (by decide)
    (by decide) (by decide) (by decide) (by simp) trivial⟩

/-- C16 as stated fails on the leap second `1990-12-31T23:59:60Z`, a valid
RFC 3339 string, which comes back unchanged as a string, and on the lower-case
form `2021-05-01t00:00:00z`. -/
theorem stringValue_leap_second_string :
    rfc3339 1990 12 31 23 59 60 [] Zone.utc = "1990-12-31T23:59:60Z".toList ∧
      stringValue "1990-12-31T23:59:60Z".toList = Value.str "1990-12-31T23:59:60Z".toList ∧
      stringValue "2021-05-01t00:00:00z".toList = Value.str "2021-05-01t00:00:00z".toList ∧
      ∀ t, stringValue "1990-12-31T23:59:60Z".toList ≠ Value.time t := by
  have h : stringValue "1990-12-31T23:59:60Z".toList =
      Value.str "1990-12-31T23:59:60Z".toList := by rfl
  refine ⟨by rfl, h, by rfl, ?_⟩
  intro t ht
  rw [h] at ht
  cases ht

end Kubesql
